import Mathlib

/-!
Verification of the frontend-code-analysis engine (VariableTracker,
FunctionAnalyzer, FlowDiagramGenerator, FrontendCodeAnalyzer,
ComponentAnalyzer) against its natural-language specification.

The TypeScript sources operate on Babel syntax trees.  We shallowly embed
the fragment of the Babel AST that those analyzers inspect as a mutual
inductive family (`JNode`/`JList`/`JOpt`; custom list/option carriers keep
all recursion structural so closed instances evaluate in the kernel), and
translate each analyzed function into a Lean function over that family.
-/

namespace FrontAnalysis

/-- Source position, Babel `loc.start` (line, column). -/
structure Pos where
  line : Nat
  column : Nat
deriving DecidableEq, Repr

/-- Babel node kind tags ("type" strings) relevant to the analyzers.  Kinds
such as `classMethod` that the analyzers test for but that our tree fragment
does not construct are still present so that ancestor-chain arguments
(scope resolution) can mention them. -/
inductive BK where
  | program | exprStmt | blockStmt | ifStmt | forStmt | forInStmt | forOfStmt
  | whileStmt | doWhileStmt | switchStmt | switchCase | tryStmt | catchClause
  | returnStmt | varDeclaration | varDeclarator | funcDecl | funcExpr
  | arrowFunc | classDecl | classExpr | classMethod | classPrivateMethod
  | objectMethod | classBody | ident | numLit | strLit | boolLit | arrayExpr
  | objectExpr | arrayPattern | assignExpr | callExpr | memberExpr | condExpr
  | logicalExpr | binExpr | jsxElement | fileRoot
deriving DecidableEq, Repr

/-- The four scope tags of `VariableScope` (`module|function|class|block`);
`class` is a Lean keyword, rendered `cls`. -/
inductive VScope where
  | module | function | cls | block
deriving DecidableEq, Repr

/-- Declaration keyword of a `VariableDeclaration` (`var`/`let`/`const`). -/
inductive DK where
  | dVar | dLet | dConst
deriving DecidableEq, Repr

/-- Operator of a Babel `LogicalExpression` (`&&`, `||`, `??`). -/
inductive LogOp where
  | andOp | orOp | nullishOp
deriving DecidableEq, Repr

mutual
/-- Shallow embedding of the Babel AST fragment the analyzers consume.
Node fields follow Babel: `ifStmt test consequent alternate`,
`varDeclarator id init loc`, `callExpr callee arguments loc`, and so on.
`JList`/`JOpt` are specialized list/option carriers of the mutual family. -/
inductive JNode where
  | program (body : JList)
  | exprStmt (e : JNode)
  | blockStmt (body : JList)
  | ifStmt (test : JNode) (conseq : JNode) (alt : JOpt)
  | forStmt (ini : JOpt) (test : JOpt) (update : JOpt) (body : JNode)
  | forInStmt (left : JNode) (right : JNode) (body : JNode)
  | forOfStmt (left : JNode) (right : JNode) (body : JNode)
  | whileStmt (test : JNode) (body : JNode)
  | doWhileStmt (body : JNode) (test : JNode)
  | switchStmt (disc : JNode) (cases : JList)
  | switchCase (test : JOpt) (conseq : JList)
  | tryStmt (block : JNode) (handler : JOpt)
  | catchClause (param : JOpt) (body : JNode)
  | returnStmt (arg : JOpt)
  | varDeclaration (kind : DK) (decls : JList)
  | varDeclarator (idPat : JNode) (ini : JOpt) (loc : Pos)
  | funcDecl (id : JOpt) (params : JList) (body : JNode) (loc : Pos)
  | funcExpr (params : JList) (body : JNode) (loc : Pos)
  | arrowFunc (params : JList) (body : JNode) (loc : Pos)
  | classDecl (id : JOpt) (superClass : JOpt) (body : JList) (loc : Pos)
  | ident (name : String) (loc : Pos)
  | numLit (v : Int) (loc : Pos)
  | strLit (v : String) (loc : Pos)
  | boolLit (v : Bool) (loc : Pos)
  | arrayExpr (elems : JList) (loc : Pos)
  | objectExpr (loc : Pos)
  | arrayPattern (elems : JList) (loc : Pos)
  | assignExpr (left : JNode) (right : JNode) (loc : Pos)
  | callExpr (callee : JNode) (args : JList) (loc : Pos)
  | memberExpr (obj : JNode) (prop : JNode) (loc : Pos)
  | condExpr (test : JNode) (conseq : JNode) (alt : JNode) (loc : Pos)
  | logicalExpr (op : LogOp) (left : JNode) (right : JNode) (loc : Pos)
  | binExpr (op : String) (left : JNode) (right : JNode) (loc : Pos)
  | jsxElement (tag : String) (children : JList) (loc : Pos)
inductive JList where
  | nil
  | cons (hd : JNode) (tl : JList)
inductive JOpt where
  | none
  | some (n : JNode)
end

/-- Babel `node.type` tag of an embedded node. -/
def kindOf : JNode → BK
  | .program _ => .program
  | .exprStmt _ => .exprStmt
  | .blockStmt _ => .blockStmt
  | .ifStmt _ _ _ => .ifStmt
  | .forStmt _ _ _ _ => .forStmt
  | .forInStmt _ _ _ => .forInStmt
  | .forOfStmt _ _ _ => .forOfStmt
  | .whileStmt _ _ => .whileStmt
  | .doWhileStmt _ _ => .doWhileStmt
  | .switchStmt _ _ => .switchStmt
  | .switchCase _ _ => .switchCase
  | .tryStmt _ _ => .tryStmt
  | .catchClause _ _ => .catchClause
  | .returnStmt _ => .returnStmt
  | .varDeclaration _ _ => .varDeclaration
  | .varDeclarator _ _ _ => .varDeclarator
  | .funcDecl _ _ _ _ => .funcDecl
  | .funcExpr _ _ _ => .funcExpr
  | .arrowFunc _ _ _ => .arrowFunc
  | .classDecl _ _ _ _ => .classDecl
  | .ident _ _ => .ident
  | .numLit _ _ => .numLit
  | .strLit _ _ => .strLit
  | .boolLit _ _ => .boolLit
  | .arrayExpr _ _ => .arrayExpr
  | .objectExpr _ => .objectExpr
  | .arrayPattern _ _ => .arrayPattern
  | .assignExpr _ _ _ => .assignExpr
  | .callExpr _ _ _ => .callExpr
  | .memberExpr _ _ _ => .memberExpr
  | .condExpr _ _ _ _ => .condExpr
  | .logicalExpr _ _ _ _ => .logicalExpr
  | .binExpr _ _ _ _ => .binExpr
  | .jsxElement _ _ _ => .jsxElement

/-! ## FunctionAnalyzer: cyclomatic complexity

`FunctionAnalyzer.findComplexityNodes` first runs an `if/else-if` chain that
fires the counting callback for `if`/conditional-expression/`switch`, the
five loop forms, `catch` clauses and `&&`/`||` logical expressions, and then
a second `if/else-if` chain that recurses only into block-statement bodies,
`if` consequent/alternate, `for`/`while`/`do-while` bodies and the `cases`
array of a `switch` (a `SwitchCase` node itself matches neither chain, so
case bodies are never entered; function bodies, `try` statements and
expression positions are never entered either). -/

mutual
/-- Number of callback firings of `FunctionAnalyzer.findComplexityNodes`
over a node: the hit from the first chain plus the recursive descent of the
second chain. -/
def findComplexityNodes : JNode → Nat
  | .ifStmt _ conseq alt => 1 + findComplexityNodes conseq + findComplexityOpt alt
  | .condExpr _ _ _ _ => 1
  | .switchStmt _ cases => 1 + findComplexityList cases
  | .forStmt _ _ _ body => 1 + findComplexityNodes body
  | .forInStmt _ _ _ => 1
  | .forOfStmt _ _ _ => 1
  | .whileStmt _ body => 1 + findComplexityNodes body
  | .doWhileStmt body _ => 1 + findComplexityNodes body
  | .catchClause _ _ => 1
  | .logicalExpr op _ _ _ => if op = .andOp ∨ op = .orOp then 1 else 0
  | .blockStmt body => findComplexityList body
  | _ => 0
/-- Descent of `findComplexityNodes` over a statement list (block body or
`switch` case array). -/
def findComplexityList : JList → Nat
  | .nil => 0
  | .cons s rest => findComplexityNodes s + findComplexityList rest
/-- Descent of `findComplexityNodes` over an optional child (`alternate`). -/
def findComplexityOpt : JOpt → Nat
  | .none => 0
  | .some n => findComplexityNodes n
end

/-- `FunctionAnalyzer.calculateComplexity`: `1` plus the number of callback
firings of `findComplexityNodes` on the function node it is given. -/
def calculateComplexityFn (node : JNode) : Nat :=
  1 + findComplexityNodes node

/-! ## VariableTracker: complexity

`VariableTracker.findConditionalNodes` fires on `if`/conditional-expression/
`switch` and recurses into block bodies, `if` branches, `for`/`while`/
`do-while` bodies, `switch` cases (dead ends, as above) and function bodies
(declaration/expression/arrow).  `findLoopNodes` fires on the five loop
forms and recurses into block bodies, `if` branches, `for`/`while`/
`do-while` bodies and function bodies (not `for-in`/`for-of` bodies and not
`switch`). -/

mutual
/-- Callback count of `VariableTracker.findConditionalNodes`. -/
def findConditionalNodes : JNode → Nat
  | .ifStmt _ conseq alt =>
      1 + findConditionalNodes conseq + findConditionalOpt alt
  | .condExpr _ _ _ _ => 1
  | .switchStmt _ cases => 1 + findConditionalList cases
  | .blockStmt body => findConditionalList body
  | .forStmt _ _ _ body => findConditionalNodes body
  | .whileStmt _ body => findConditionalNodes body
  | .doWhileStmt body _ => findConditionalNodes body
  | .funcDecl _ _ body _ => findConditionalNodes body
  | .funcExpr _ body _ => findConditionalNodes body
  | .arrowFunc _ body _ => findConditionalNodes body
  | _ => 0
/-- Descent of `findConditionalNodes` over a statement list. -/
def findConditionalList : JList → Nat
  | .nil => 0
  | .cons s rest => findConditionalNodes s + findConditionalList rest
/-- Descent of `findConditionalNodes` over an optional child. -/
def findConditionalOpt : JOpt → Nat
  | .none => 0
  | .some n => findConditionalNodes n
end

mutual
/-- Callback count of `VariableTracker.findLoopNodes`. -/
def findLoopNodes : JNode → Nat
  | .forStmt _ _ _ body => 1 + findLoopNodes body
  | .forInStmt _ _ _ => 1
  | .forOfStmt _ _ _ => 1
  | .whileStmt _ body => 1 + findLoopNodes body
  | .doWhileStmt body _ => 1 + findLoopNodes body
  | .blockStmt body => findLoopList body
  | .ifStmt _ conseq alt => findLoopNodes conseq + findLoopOpt alt
  | .funcDecl _ _ body _ => findLoopNodes body
  | .funcExpr _ body _ => findLoopNodes body
  | .arrowFunc _ body _ => findLoopNodes body
  | _ => 0
/-- Descent of `findLoopNodes` over a statement list. -/
def findLoopList : JList → Nat
  | .nil => 0
  | .cons s rest => findLoopNodes s + findLoopList rest
/-- Descent of `findLoopNodes` over an optional child. -/
def findLoopOpt : JOpt → Nat
  | .none => 0
  | .some n => findLoopNodes n
end

/-- `VariableTracker.countConditions`. -/
def countConditions (node : JNode) : Nat := findConditionalNodes node

/-- `VariableTracker.countLoops`. -/
def countLoops (node : JNode) : Nat := findLoopNodes node

/-- `VariableTracker.calculateComplexity`: starts at 1; for function
declarations and arrow functions adds condition and loop counts of the node;
for a variable declarator with an initializer adds the counts of the
initializer; otherwise stays 1. -/
def calculateComplexityVar : JNode → Nat
  | .funcDecl i ps body loc =>
      1 + countConditions (.funcDecl i ps body loc)
        + countLoops (.funcDecl i ps body loc)
  | .arrowFunc ps body loc =>
      1 + countConditions (.arrowFunc ps body loc)
        + countLoops (.arrowFunc ps body loc)
  | .varDeclarator _ (.some ini) _ =>
      1 + countConditions ini + countLoops ini
  | _ => 1

/-! ## VariableTracker.determineScope

The source climbs with `let currentPath = path; ...; currentPath =
currentPath.parent`.  On a Babel `NodePath`, `.parent` is the parent *AST
node*, not the parent path: the second iteration therefore sees a plain
node, whose `.node` field is `undefined`, so the `if (currentPath.node)`
guard skips both class tests, and `node.parent` is likewise `undefined`, so
the loop exits.  The class kinds are hence only ever tested against the
starting path's own node.  `path.getFunctionParent()` is Babel's and walks
the real ancestor chain (excluding the path itself), matching the Babel
`Function` alias.  We model a path as the kind of its own node plus the
list of ancestor kinds, nearest first. -/

/-- Kinds matched by the class tests of `determineScope`
(`t.isClassMethod`, `t.isClassPrivateMethod`, `t.isClassDeclaration`,
`t.isClassExpression`). -/
def isClassScopeKind : BK → Bool
  | .classMethod | .classPrivateMethod | .classDecl | .classExpr => true
  | _ => false

/-- Babel's `Function` alias, used by `path.getFunctionParent()`. -/
def isBabelFunctionKind : BK → Bool
  | .funcDecl | .funcExpr | .arrowFunc | .objectMethod | .classMethod
  | .classPrivateMethod => true
  | _ => false

/-- `VariableTracker.determineScope` (see the section comment for why the
class tests only reach the path's own node). -/
def determineScope (self : BK) (ancestors : List BK) : VScope :=
  if isClassScopeKind self then .cls
  else if ancestors.any isBabelFunctionKind then .function
  else .module

/-! ## VariableTracker: descriptor construction -/

/-- Runtime value of a literal, plus the JS `[]`/`{}`/`undefined` results of
the analyzers' `extractDefaultValue`. -/
inductive LitV where
  | num (v : Int)
  | str (v : String)
  | bool (v : Bool)
  | arrV
  | objV
  | undefV
deriving DecidableEq, Repr

/-- `t.isLiteral` restricted to the literal kinds of the embedding. -/
def isLiteralNode : JNode → Bool
  | .numLit _ _ | .strLit _ _ | .boolLit _ _ => true
  | _ => false

/-- The `.value` field of a literal node. -/
def literalValue : JNode → LitV
  | .numLit v _ => .num v
  | .strLit v _ => .str v
  | .boolLit v _ => .bool v
  | _ => .undefV

/-- `VariableTracker.extractValue`: the literal value of a declarator's
initializer, else `undefined`. -/
def extractValue : JNode → LitV
  | .varDeclarator _ (.some ini) _ =>
      if isLiteralNode ini then literalValue ini else .undefV
  | _ => .undefV

/-- `VariableTracker.getVariableName`. -/
def getVariableName : JNode → String
  | .varDeclarator (.ident nm _) _ _ => nm
  | .varDeclarator (.arrayPattern _ _) _ _ => "destructured"
  | .funcDecl (.some (.ident nm _)) _ _ _ => nm
  | .classDecl (.some (.ident nm _)) _ _ _ => nm
  | _ => "unknown"

/-- `VariableTracker.inferVariableType`. -/
def inferVariableType : JNode → String
  | .funcDecl _ _ _ _ => "function"
  | .arrowFunc _ _ _ => "function"
  | .classDecl _ _ _ _ => "class"
  | .varDeclarator _ (.some ini) _ =>
      match ini with
      | .strLit _ _ => "string"
      | .numLit _ _ => "number"
      | .boolLit _ _ => "boolean"
      | .arrayExpr _ _ => "array"
      | .objectExpr _ => "object"
      | .funcExpr _ _ _ => "function"
      | .arrowFunc _ _ _ => "function"
      | _ => "any"
  | _ => "any"

/-- `VariableTracker.getDeclarationType` (the declaration keyword comes from
the declarator's parent `VariableDeclaration`, reached through the `__path`
attachment in the source). -/
def getDeclarationType (node : JNode) (ty : String) (parent : Option JNode) :
    String :=
  if ty = "function" then "function"
  else if ty = "class" then "class"
  else if ty = "arrow" then "arrow"
  else
    match node with
    | .varDeclarator _ (.some (.arrowFunc _ _ _)) _ => "arrow"
    | .varDeclarator _ _ _ =>
        match parent with
        | Option.some (.varDeclaration k _) =>
            match k with
            | .dVar => "var"
            | .dLet => "let"
            | .dConst => "const"
        | _ => "var"
    | _ => "var"

/-- Babel `loc.start` of a node (`node.loc?.start.line || 0` fallback for
the kinds without a stored position). -/
def locOf : JNode → Pos
  | .varDeclarator _ _ loc => loc
  | .funcDecl _ _ _ loc => loc
  | .funcExpr _ _ loc => loc
  | .arrowFunc _ _ loc => loc
  | .classDecl _ _ _ loc => loc
  | .ident _ loc => loc
  | .numLit _ loc => loc
  | .strLit _ loc => loc
  | .boolLit _ loc => loc
  | .arrayExpr _ loc => loc
  | .objectExpr loc => loc
  | .arrayPattern _ loc => loc
  | .assignExpr _ _ loc => loc
  | .callExpr _ _ loc => loc
  | .memberExpr _ _ loc => loc
  | .condExpr _ _ _ loc => loc
  | .logicalExpr _ _ _ loc => loc
  | .binExpr _ _ _ loc => loc
  | .jsxElement _ _ loc => loc
  | _ => ⟨0, 0⟩

/-- One classified occurrence of a tracked name (`VariableUsage`). -/
structure UsageRec where
  utype : String
  location : Pos
  context : String
  isAssignment : Bool
  isRead : Bool
  isFunctionCall : Bool
  isPropertyAccess : Bool
  isArrayAccess : Bool
  isConditional : Bool
  isLoopVariable : Bool
  frequency : String
deriving DecidableEq, Repr

/-- The `VariableInfo` descriptor built by
`VariableTracker.createVariableInfo` (the `dependencies` list, always empty,
and the never-populated `description` are omitted). -/
structure VariableInfo where
  name : String
  type : String
  scope : VScope
  declarationType : String
  usage : List UsageRec
  isExported : Bool
  isImported : Bool
  line : Nat
  column : Nat
  value : LitV
  isOptional : Bool
  isReadonly : Bool
  isPrivate : Bool
  isStatic : Bool
  complexity : Nat
  usageCount : Nat
  lastUsedAt : Option Pos
deriving DecidableEq, Repr

/-- `VariableTracker.createVariableInfo`.  `isExported` climbs with the same
broken `.parent` dereference as `determineScope` (the nodes it reaches have
no `.node`), so it is constantly `false`. -/
def createVariableInfo (node : JNode) (parent : Option JNode)
    (ancestors : List BK) (ty : String) : VariableInfo :=
  let nm := getVariableName node
  let declType := getDeclarationType node ty parent
  { name := nm
    type := inferVariableType node
    scope := determineScope (kindOf node) ancestors
    declarationType := declType
    usage := []
    isExported := false
    isImported := false
    line := (locOf node).line
    column := (locOf node).column
    value := extractValue node
    isOptional := false
    isReadonly := declType = "const"
    isPrivate := nm.startsWith "_"
    isStatic := false
    complexity := calculateComplexityVar node
    usageCount := 0
    lastUsedAt := Option.none }

/-! ## Generic pre-order traversal (Babel `traverse` /
`ComponentAnalyzer.traverseAST`)

Babel's `traverse` and the hand-rolled `traverseAST` both visit a node
before its children and descend into every child field.  The walker below
records, for every node, its parent node and the kinds of all its
ancestors (nearest first); the individual analyzers are `filterMap`s over
its output. -/

/-- One visited node together with its parent node and ancestor kinds
(nearest first). -/
structure Visit where
  node : JNode
  parent : Option JNode
  anc : List BK

mutual
/-- Pre-order traversal collecting every node with its parent and ancestor
kinds. -/
def walk (parent : Option JNode) (anc : List BK) : JNode → List Visit
  | n@(.program body) =>
      ⟨n, parent, anc⟩ :: walkList (Option.some n) (.program :: anc) body
  | n@(.exprStmt e) =>
      ⟨n, parent, anc⟩ :: walk (Option.some n) (.exprStmt :: anc) e
  | n@(.blockStmt body) =>
      ⟨n, parent, anc⟩ :: walkList (Option.some n) (.blockStmt :: anc) body
  | n@(.ifStmt test conseq alt) =>
      ⟨n, parent, anc⟩ :: (walk (Option.some n) (.ifStmt :: anc) test
        ++ walk (Option.some n) (.ifStmt :: anc) conseq
        ++ walkOpt (Option.some n) (.ifStmt :: anc) alt)
  | n@(.forStmt ini test update body) =>
      ⟨n, parent, anc⟩ :: (walkOpt (Option.some n) (.forStmt :: anc) ini
        ++ walkOpt (Option.some n) (.forStmt :: anc) test
        ++ walkOpt (Option.some n) (.forStmt :: anc) update
        ++ walk (Option.some n) (.forStmt :: anc) body)
  | n@(.forInStmt l r body) =>
      ⟨n, parent, anc⟩ :: (walk (Option.some n) (.forInStmt :: anc) l
        ++ walk (Option.some n) (.forInStmt :: anc) r
        ++ walk (Option.some n) (.forInStmt :: anc) body)
  | n@(.forOfStmt l r body) =>
      ⟨n, parent, anc⟩ :: (walk (Option.some n) (.forOfStmt :: anc) l
        ++ walk (Option.some n) (.forOfStmt :: anc) r
        ++ walk (Option.some n) (.forOfStmt :: anc) body)
  | n@(.whileStmt test body) =>
      ⟨n, parent, anc⟩ :: (walk (Option.some n) (.whileStmt :: anc) test
        ++ walk (Option.some n) (.whileStmt :: anc) body)
  | n@(.doWhileStmt body test) =>
      ⟨n, parent, anc⟩ :: (walk (Option.some n) (.doWhileStmt :: anc) body
        ++ walk (Option.some n) (.doWhileStmt :: anc) test)
  | n@(.switchStmt disc cases) =>
      ⟨n, parent, anc⟩ :: (walk (Option.some n) (.switchStmt :: anc) disc
        ++ walkList (Option.some n) (.switchStmt :: anc) cases)
  | n@(.switchCase test conseq) =>
      ⟨n, parent, anc⟩ :: (walkOpt (Option.some n) (.switchCase :: anc) test
        ++ walkList (Option.some n) (.switchCase :: anc) conseq)
  | n@(.tryStmt blk handler) =>
      ⟨n, parent, anc⟩ :: (walk (Option.some n) (.tryStmt :: anc) blk
        ++ walkOpt (Option.some n) (.tryStmt :: anc) handler)
  | n@(.catchClause param body) =>
      ⟨n, parent, anc⟩ :: (walkOpt (Option.some n) (.catchClause :: anc) param
        ++ walk (Option.some n) (.catchClause :: anc) body)
  | n@(.returnStmt arg) =>
      ⟨n, parent, anc⟩ :: walkOpt (Option.some n) (.returnStmt :: anc) arg
  | n@(.varDeclaration _ decls) =>
      ⟨n, parent, anc⟩ :: walkList (Option.some n) (.varDeclaration :: anc) decls
  | n@(.varDeclarator idPat ini _) =>
      ⟨n, parent, anc⟩ :: (walk (Option.some n) (.varDeclarator :: anc) idPat
        ++ walkOpt (Option.some n) (.varDeclarator :: anc) ini)
  | n@(.funcDecl id params body _) =>
      ⟨n, parent, anc⟩ :: (walkOpt (Option.some n) (.funcDecl :: anc) id
        ++ walkList (Option.some n) (.funcDecl :: anc) params
        ++ walk (Option.some n) (.funcDecl :: anc) body)
  | n@(.funcExpr params body _) =>
      ⟨n, parent, anc⟩ :: (walkList (Option.some n) (.funcExpr :: anc) params
        ++ walk (Option.some n) (.funcExpr :: anc) body)
  | n@(.arrowFunc params body _) =>
      ⟨n, parent, anc⟩ :: (walkList (Option.some n) (.arrowFunc :: anc) params
        ++ walk (Option.some n) (.arrowFunc :: anc) body)
  | n@(.classDecl id sup body _) =>
      ⟨n, parent, anc⟩ :: (walkOpt (Option.some n) (.classDecl :: anc) id
        ++ walkOpt (Option.some n) (.classDecl :: anc) sup
        ++ walkList (Option.some n) (.classDecl :: anc) body)
  | n@(.ident _ _) => [⟨n, parent, anc⟩]
  | n@(.numLit _ _) => [⟨n, parent, anc⟩]
  | n@(.strLit _ _) => [⟨n, parent, anc⟩]
  | n@(.boolLit _ _) => [⟨n, parent, anc⟩]
  | n@(.arrayExpr elems _) =>
      ⟨n, parent, anc⟩ :: walkList (Option.some n) (.arrayExpr :: anc) elems
  | n@(.objectExpr _) => [⟨n, parent, anc⟩]
  | n@(.arrayPattern elems _) =>
      ⟨n, parent, anc⟩ :: walkList (Option.some n) (.arrayPattern :: anc) elems
  | n@(.assignExpr l r _) =>
      ⟨n, parent, anc⟩ :: (walk (Option.some n) (.assignExpr :: anc) l
        ++ walk (Option.some n) (.assignExpr :: anc) r)
  | n@(.callExpr callee args _) =>
      ⟨n, parent, anc⟩ :: (walk (Option.some n) (.callExpr :: anc) callee
        ++ walkList (Option.some n) (.callExpr :: anc) args)
  | n@(.memberExpr obj prop _) =>
      ⟨n, parent, anc⟩ :: (walk (Option.some n) (.memberExpr :: anc) obj
        ++ walk (Option.some n) (.memberExpr :: anc) prop)
  | n@(.condExpr test conseq alt _) =>
      ⟨n, parent, anc⟩ :: (walk (Option.some n) (.condExpr :: anc) test
        ++ walk (Option.some n) (.condExpr :: anc) conseq
        ++ walk (Option.some n) (.condExpr :: anc) alt)
  | n@(.logicalExpr _ l r _) =>
      ⟨n, parent, anc⟩ :: (walk (Option.some n) (.logicalExpr :: anc) l
        ++ walk (Option.some n) (.logicalExpr :: anc) r)
  | n@(.binExpr _ l r _) =>
      ⟨n, parent, anc⟩ :: (walk (Option.some n) (.binExpr :: anc) l
        ++ walk (Option.some n) (.binExpr :: anc) r)
  | n@(.jsxElement _ children _) =>
      ⟨n, parent, anc⟩ :: walkList (Option.some n) (.jsxElement :: anc) children
/-- Traversal of a child list. -/
def walkList (parent : Option JNode) (anc : List BK) : JList → List Visit
  | .nil => []
  | .cons hd tl => walk parent anc hd ++ walkList parent anc tl
/-- Traversal of an optional child. -/
def walkOpt (parent : Option JNode) (anc : List BK) : JOpt → List Visit
  | .none => []
  | .some n => walk parent anc n
end

/-! ## VariableTracker.analyzeVariables and analyzeVariableUsage -/

/-- The declaration handlers of `VariableTracker.analyzeVariables`: variable
declarators with identifier patterns, named function declarations, named
class declarations, and arrow functions whose parent is an
identifier-pattern declarator.  Seeds appear in traversal (pre-)order; a
`const f = () => …` therefore yields two seeds, the declarator's (named
`f`) and the arrow's (named `unknown`, because `getVariableName` reads the
arrow node's absent `id`). -/
def collectSeeds (ast : JNode) : List VariableInfo :=
  (walk Option.none [] ast).filterMap fun v =>
    match v.node with
    | .varDeclarator (.ident _ _) _ _ =>
        Option.some (createVariableInfo v.node v.parent v.anc "variable")
    | .funcDecl (.some (.ident _ _)) _ _ _ =>
        Option.some (createVariableInfo v.node v.parent v.anc "function")
    | .classDecl (.some (.ident _ _)) _ _ _ =>
        Option.some (createVariableInfo v.node v.parent v.anc "class")
    | .arrowFunc _ _ _ =>
        match v.parent with
        | Option.some (.varDeclarator (.ident _ _) _ _) =>
            Option.some (createVariableInfo v.node v.parent v.anc "arrow")
        | _ => Option.none
    | _ => Option.none

/-- One identifier occurrence seen by the `Identifier` visitor of
`analyzeVariableUsage`: its name, position and the kind of its immediate
parent node. -/
structure Occ where
  name : String
  loc : Pos
  parentK : BK
deriving DecidableEq, Repr

/-- All identifier occurrences of the tree, in traversal order. -/
def collectOccs (ast : JNode) : List Occ :=
  (walk Option.none [] ast).filterMap fun v =>
    match v.node with
    | .ident nm loc =>
        Option.some ⟨nm, loc,
          match v.parent with
          | Option.some p => kindOf p
          | Option.none => .fileRoot⟩
    | _ => Option.none

/-- Parent kinds treated as loops by `isLoopVariable` (whose climb, like
`isInConditionalContext`, tests the parent *node* and then dies, so only the
immediate parent matters; every branch of its `ForStatement` analysis ends
in `return true`). -/
def loopParentKinds : List BK :=
  [.forStmt, .forInStmt, .forOfStmt, .whileStmt, .doWhileStmt]

/-- `VariableTracker.isAssignment`: parent is an assignment expression. -/
def isAssignmentOcc (p : BK) : Bool := p == .assignExpr

/-- `VariableTracker.isRead`: parent is not an assignment expression. -/
def isReadOcc (p : BK) : Bool := !(p == .assignExpr)

/-- `VariableTracker.getUsageType` from the parent kind.  The
`isInConditionalContext` climb tests the parent node and then dies on
`.parent`, so it reduces to the parent kind being `if`/conditional/`switch`/
`switch-case`; the loop climb in the final branch likewise. -/
def getUsageType (p : BK) : String :=
  if p == .assignExpr then "assignment"
  else if p == .callExpr then "function_call"
  else if p == .memberExpr then "property_access"
  else if p == .arrayExpr then "array_access"
  else if p == .condExpr then "conditional"
  else if p == .ifStmt || p == .condExpr || p == .switchStmt
      || p == .switchCase then "conditional"
  else if loopParentKinds.contains p then "loop"
  else "read"

/-- The `VariableUsage` record built in `analyzeVariableUsage`.
`getUsageContext` and `isConditional` climb over `.parent` nodes whose
`.node` is `undefined`, so they are constantly `"global"` and `false`. -/
def mkUsage (o : Occ) : UsageRec :=
  { utype := getUsageType o.parentK
    location := o.loc
    context := "global"
    isAssignment := isAssignmentOcc o.parentK
    isRead := isReadOcc o.parentK
    isFunctionCall := o.parentK == .callExpr
    isPropertyAccess := o.parentK == .memberExpr
    isArrayAccess := o.parentK == .arrayExpr
    isConditional := false
    isLoopVariable := loopParentKinds.contains o.parentK
    frequency := "medium" }

/-- Replace the element at an index (identity when out of range). -/
def updateAt (i : Nat) (f : α → α) (l : List α) : List α :=
  match l, i with
  | [], _ => []
  | a :: l, 0 => f a :: l
  | a :: l, Nat.succ j => a :: updateAt j f l

/-- The three mutations of a match in `analyzeVariableUsage`:
`variable.usage.push(usage)`, `variable.usageCount++`,
`variable.lastUsedAt = usage.location`. -/
def pushUsage (u : UsageRec) (v : VariableInfo) : VariableInfo :=
  { v with
    usage := v.usage ++ [u]
    usageCount := v.usageCount + 1
    lastUsedAt := Option.some u.location }

/-- Index of the last descriptor with a given name: the binding
`variableMap.get(name)` resolves to, since `variableMap.set` overwrites
earlier same-named entries and the map aliases the array's elements. -/
def lastIdxOf : List VariableInfo → String → Option Nat
  | [], _ => Option.none
  | s :: rest, nm =>
      match lastIdxOf rest nm with
      | Option.some i => Option.some (i + 1)
      | Option.none => if s.name = nm then Option.some 0 else Option.none

/-- Processing of one identifier occurrence against the store. -/
def applyOcc (idx : String → Option Nat) (store : List VariableInfo)
    (o : Occ) : List VariableInfo :=
  match idx o.name with
  | Option.none => store
  | Option.some i => updateAt i (pushUsage (mkUsage o)) store

/-- `VariableTracker.analyzeVariables`: extract the declaration seeds, then
run `analyzeVariableUsage` over every identifier occurrence. -/
def analyzeVariables (ast : JNode) (_filePath : String) : List VariableInfo :=
  let seeds := collectSeeds ast
  (collectOccs ast).foldl (applyOcc (lastIdxOf seeds)) seeds

/-- The `(name, position)` pairs of the identifier patterns of the tree's
variable declarators (used to state the defensible reading of "declaration
position": a declarator's span starts at its identifier). -/
def declaratorIdOccs (ast : JNode) : List (String × Pos) :=
  (walk Option.none [] ast).filterMap fun v =>
    match v.node with
    | .varDeclarator (.ident nm loc) _ _ => Option.some (nm, loc)
    | _ => Option.none

/-! ## FlowDiagramGenerator

Node and edge records (`FlowNode`, `FlowEdge`, `FlowDiagram`); the
`type` unions are kept as the source's literal strings.  The source's
`from`/`to` edge fields are Lean keywords and rendered `fromId`/`toId`;
`properties` is a key/value list. -/

/-- A flow-graph node. -/
structure FlowNode where
  id : String
  label : String
  type : String
  properties : List (String × LitV)
deriving DecidableEq, Repr

/-- A flow-graph edge (`from`/`to` rendered `fromId`/`toId`). -/
structure FlowEdge where
  fromId : String
  toId : String
  label : Option String
  etype : Option String
  condition : Option String
deriving DecidableEq, Repr

/-- Graph metadata. -/
structure FlowMeta where
  mtype : String
  title : String
  description : String
deriving DecidableEq, Repr

/-- A synthesized flow diagram. -/
structure FlowDiagram where
  nodes : List FlowNode
  edges : List FlowEdge
  metadata : FlowMeta
deriving DecidableEq, Repr

/-- Babel `node.type` string, used by `analyzeStatementControlFlow` as the
label of a plain statement. -/
def typeName : JNode → String
  | .program _ => "Program"
  | .exprStmt _ => "ExpressionStatement"
  | .blockStmt _ => "BlockStatement"
  | .ifStmt _ _ _ => "IfStatement"
  | .forStmt _ _ _ _ => "ForStatement"
  | .forInStmt _ _ _ => "ForInStatement"
  | .forOfStmt _ _ _ => "ForOfStatement"
  | .whileStmt _ _ => "WhileStatement"
  | .doWhileStmt _ _ => "DoWhileStatement"
  | .switchStmt _ _ => "SwitchStatement"
  | .switchCase _ _ => "SwitchCase"
  | .tryStmt _ _ => "TryStatement"
  | .catchClause _ _ => "CatchClause"
  | .returnStmt _ => "ReturnStatement"
  | .varDeclaration _ _ => "VariableDeclaration"
  | .varDeclarator _ _ _ => "VariableDeclarator"
  | .funcDecl _ _ _ _ => "FunctionDeclaration"
  | .funcExpr _ _ _ => "FunctionExpression"
  | .arrowFunc _ _ _ => "ArrowFunctionExpression"
  | .classDecl _ _ _ _ => "ClassDeclaration"
  | .ident _ _ => "Identifier"
  | .numLit _ _ => "NumericLiteral"
  | .strLit _ _ => "StringLiteral"
  | .boolLit _ _ => "BooleanLiteral"
  | .arrayExpr _ _ => "ArrayExpression"
  | .objectExpr _ => "ObjectExpression"
  | .arrayPattern _ _ => "ArrayPattern"
  | .assignExpr _ _ _ => "AssignmentExpression"
  | .callExpr _ _ _ => "CallExpression"
  | .memberExpr _ _ _ => "MemberExpression"
  | .condExpr _ _ _ _ => "ConditionalExpression"
  | .logicalExpr _ _ _ _ => "LogicalExpression"
  | .binExpr _ _ _ _ => "BinaryExpression"
  | .jsxElement _ _ _ => "JSXElement"

/-- `FlowDiagramGenerator.getFunctionName`. -/
def getFunctionNameFG (n : JNode) (parent : Option JNode) : String :=
  match n with
  | .funcDecl (.some (.ident nm _)) _ _ _ => nm
  | .arrowFunc _ _ _ =>
      match parent with
      | Option.some (.varDeclarator (.ident nm _) _ _) => nm
      | _ => "Anonymous"
  | .funcExpr _ _ _ =>
      match parent with
      | Option.some (.varDeclarator (.ident nm _) _ _) => nm
      | _ => "Anonymous"
  | .classDecl (.some (.ident nm _)) _ _ _ => nm
  | _ => "Anonymous"

/-- The label text `caseStmt.test.value || caseStmt.test.name` renders in a
JS template literal: a falsy `value` (`0`, `""`, `false`) falls through to
`name`, which is `undefined` on non-identifiers. -/
def jsValueOrName : JNode → String
  | .numLit v _ => if v = 0 then "undefined" else toString v
  | .strLit s _ => if s = "" then "undefined" else s
  | .boolLit b _ => if b then "true" else "undefined"
  | .ident nm _ => nm
  | _ => "undefined"

/-- Label of one `switch` case in `analyzeSwitchStatement`. -/
def caseLabelOf : JNode → String
  | .switchCase (.some t) _ => "Case " ++ jsValueOrName t
  | _ => "Default"

/-- The `stmt.cases.forEach` loop of `analyzeSwitchStatement`: one `case_…`
node and one conditional edge per case, with a locally increasing id. -/
def switchCasesCF (cases : JList) (nodeId : Nat) (switchId : String) :
    List FlowNode × List FlowEdge :=
  match cases with
  | .nil => ([], [])
  | .cons c rest =>
      let caseId := "case_" ++ toString nodeId
      let sub := switchCasesCF rest (nodeId + 1) switchId
      (⟨caseId, caseLabelOf c, "process", []⟩ :: sub.1,
       ⟨switchId, caseId, Option.none, Option.some "conditional",
         Option.none⟩ :: sub.2)

/-- `FlowDiagramGenerator.analyzeStatementControlFlow` (with
`analyzeIfStatement`, `analyzeLoopStatement`, `analyzeSwitchStatement`
inlined).  `nodeId` is a JavaScript number parameter: increments inside a
call are invisible to the caller. -/
def analyzeStatementCF (stmt : JNode) (nodeId : Nat) (parentId : String) :
    List FlowNode × List FlowEdge :=
  match stmt with
  | .ifStmt _ _ alt =>
      let ifId := "if_" ++ toString nodeId
      let thenId := "then_" ++ toString (nodeId + 1)
      let ns := [⟨ifId, "If Condition", "decision", []⟩,
                 ⟨thenId, "Then", "process", []⟩]
      let es := [⟨parentId, ifId, Option.none, Option.some "normal", Option.none⟩,
                 ⟨ifId, thenId, Option.none, Option.some "conditional",
                   Option.some "true"⟩]
      match alt with
      | .none => (ns, es)
      | .some _ =>
          let elseId := "else_" ++ toString (nodeId + 2)
          (ns ++ [⟨elseId, "Else", "process", []⟩],
           es ++ [⟨ifId, elseId, Option.none, Option.some "conditional",
             Option.some "false"⟩])
  | .forStmt _ _ _ _ =>
      let loopId := "loop_" ++ toString nodeId
      let bodyId := "body_" ++ toString (nodeId + 1)
      ([⟨loopId, "For Loop", "loop", []⟩, ⟨bodyId, "Loop Body", "process", []⟩],
       [⟨parentId, loopId, Option.none, Option.some "normal", Option.none⟩,
        ⟨loopId, bodyId, Option.none, Option.some "normal", Option.none⟩,
        ⟨bodyId, loopId, Option.none, Option.some "loop", Option.none⟩])
  | .whileStmt _ _ =>
      let loopId := "loop_" ++ toString nodeId
      let bodyId := "body_" ++ toString (nodeId + 1)
      ([⟨loopId, "While Loop", "loop", []⟩, ⟨bodyId, "Loop Body", "process", []⟩],
       [⟨parentId, loopId, Option.none, Option.some "normal", Option.none⟩,
        ⟨loopId, bodyId, Option.none, Option.some "normal", Option.none⟩,
        ⟨bodyId, loopId, Option.none, Option.some "loop", Option.none⟩])
  | .doWhileStmt _ _ =>
      let loopId := "loop_" ++ toString nodeId
      let bodyId := "body_" ++ toString (nodeId + 1)
      ([⟨loopId, "Do-While Loop", "loop", []⟩,
        ⟨bodyId, "Loop Body", "process", []⟩],
       [⟨parentId, loopId, Option.none, Option.some "normal", Option.none⟩,
        ⟨loopId, bodyId, Option.none, Option.some "normal", Option.none⟩,
        ⟨bodyId, loopId, Option.none, Option.some "loop", Option.none⟩])
  | .switchStmt _ cases =>
      let switchId := "switch_" ++ toString nodeId
      let sub := switchCasesCF cases (nodeId + 1) switchId
      (⟨switchId, "Switch", "decision", []⟩ :: sub.1,
       ⟨parentId, switchId, Option.none, Option.some "normal",
         Option.none⟩ :: sub.2)
  | s =>
      let stmtId := "stmt_" ++ toString nodeId
      ([⟨stmtId, typeName s, "process", []⟩],
       [⟨parentId, stmtId, Option.none, Option.some "normal", Option.none⟩])

/-- The `path.node.body.forEach` loop of `analyzeProgramControlFlow`:
every statement receives the same `nodeId` value, because the local
`nodeId++` of one `analyzeStatementControlFlow` call is lost. -/
def stmtsCF (body : JList) (nodeId : Nat) (parentId : String) :
    List FlowNode × List FlowEdge :=
  match body with
  | .nil => ([], [])
  | .cons s rest =>
      let s1 := analyzeStatementCF s nodeId parentId
      let s2 := stmtsCF rest nodeId parentId
      (s1.1 ++ s2.1, s1.2 ++ s2.2)

/-- `FlowDiagramGenerator.analyzeProgramControlFlow`. -/
def analyzeProgramCF (body : JList) (nodeId : Nat) :
    List FlowNode × List FlowEdge :=
  let programId := "program_" ++ toString nodeId
  let sub := stmtsCF body (nodeId + 1) programId
  (⟨programId, "Program", "process", []⟩ :: sub.1,
   ⟨"start", programId, Option.none, Option.some "normal", Option.none⟩ :: sub.2)

/-- `FlowDiagramGenerator.analyzeFunctionControlFlow`: a `func_<name>_<id>`
node, then the whole function body fed to `analyzeStatementControlFlow`
(a block statement thus becomes a plain `stmt_…` node). -/
def analyzeFunctionCF (f : JNode) (parent : Option JNode) (nodeId : Nat) :
    List FlowNode × List FlowEdge :=
  let nm := getFunctionNameFG f parent
  let functionId := "func_" ++ nm ++ "_" ++ toString nodeId
  let body := match f with
    | .funcDecl _ _ b _ => b
    | .arrowFunc _ b _ => b
    | _ => f
  let sub := analyzeStatementCF body (nodeId + 1) functionId
  (⟨functionId, nm, "function", []⟩ :: sub.1, sub.2)

/-- The `FunctionDeclaration` and `ArrowFunctionExpression` handler targets
of `generateControlFlow`'s traversal, in pre-order, with their parents. -/
def collectCFFunctions (ast : JNode) : List (JNode × Option JNode) :=
  (walk Option.none [] ast).filterMap fun v =>
    match v.node with
    | .funcDecl _ _ _ _ => Option.some (v.node, v.parent)
    | .arrowFunc _ _ _ => Option.some (v.node, v.parent)
    | _ => Option.none

/-- The `Program` handler's emission: the traversal root is the program
node itself (no nested `Program` nodes exist). -/
def progPartCF (ast : JNode) : List FlowNode × List FlowEdge :=
  match ast with
  | .program body => analyzeProgramCF body 0
  | _ => ([], [])

/-- `FlowDiagramGenerator.generateControlFlow`: a `start` node, the
`Program` handler's emission (the traversal root), each function handler's
emission in traversal order (each restarting from the captured `nodeId`
value `0`), then an `end` node.  No edge to `end` is ever emitted. -/
def generateControlFlow (ast : JNode) (filePath : String) : FlowDiagram :=
  let fnParts := (collectCFFunctions ast).map fun fp =>
    analyzeFunctionCF fp.1 fp.2 0
  { nodes := ⟨"start", "Start", "start", []⟩ ::
      ((progPartCF ast).1 ++ (fnParts.map Prod.fst).flatten ++
        [⟨"end", "End", "end", []⟩])
    edges := (progPartCF ast).2 ++ (fnParts.map Prod.snd).flatten
    metadata := ⟨"control_flow", "Control Flow - " ++ filePath, "程序控制流图"⟩ }

/-! ### Data flow -/

/-- Association-list update with `Map.set` semantics. -/
def mapSet (m : List (String × String)) (k v : String) :
    List (String × String) :=
  match m with
  | [] => [(k, v)]
  | (k', v') :: rest => if k' = k then (k, v) :: rest else (k', v') :: mapSet rest k v

/-- Association-list lookup (`Map.get`). -/
def mapGet (m : List (String × String)) (k : String) : Option String :=
  match m with
  | [] => Option.none
  | (k', v') :: rest => if k' = k then Option.some v' else mapGet rest k

/-- `FlowDiagramGenerator.getDeclarationType`: the parent
`VariableDeclaration`'s keyword, else `"var"`. -/
def dfDeclKind (parent : Option JNode) : String :=
  match parent with
  | Option.some (.varDeclaration k _) =>
      match k with
      | .dVar => "var"
      | .dLet => "let"
      | .dConst => "const"
  | _ => "var"

/-- `FlowDiagramGenerator.extractValue` applied to a declarator's optional
initializer. -/
def dfValue (ini : JOpt) : LitV :=
  match ini with
  | .some n => if isLiteralNode n then literalValue n else .undefV
  | .none => .undefV

/-- The events of `generateDataFlow`'s single traversal: declarator
registrations and identifier occurrences, in pre-order. -/
inductive DFEv where
  | decl (name : String) (kindStr : String) (value : LitV)
  | idOcc (name : String) (parentIsAssign : Bool)
deriving DecidableEq, Repr

/-- Event list of `generateDataFlow` over a tree. -/
def dfEvents (ast : JNode) : List DFEv :=
  (walk Option.none [] ast).filterMap fun v =>
    match v.node with
    | .varDeclarator (.ident nm _) ini _ =>
        Option.some (.decl nm (dfDeclKind v.parent) (dfValue ini))
    | .ident nm _ =>
        Option.some (.idOcc nm
          (match v.parent with
           | Option.some (.assignExpr _ _ _) => true
           | _ => false))
    | _ => Option.none

/-- State of `generateDataFlow`: emitted nodes and edges, the
name-to-node-id map, and the number of entropy draws consumed so far. -/
structure DFState where
  nodes : List FlowNode
  edges : List FlowEdge
  varMap : List (String × String)
  draws : Nat
deriving Repr

/-- One event step of `generateDataFlow`.  An assignment occurrence of a
mapped name emits a process node whose id is
`assign_${Date.now()}_${Math.random()}`; the clock/random pair observed at
the k-th draw is abstracted as `entropy k`. -/
def dfStep (entropy : Nat → String) (s : DFState) : DFEv → DFState
  | .decl nm kindStr val =>
      let varId := "var_" ++ nm
      { s with
        varMap := mapSet s.varMap nm varId
        nodes := s.nodes ++
          [⟨varId, nm, "variable",
            [("declarationType", .str kindStr), ("value", val)]⟩] }
  | .idOcc nm pAssign =>
      match mapGet s.varMap nm with
      | Option.none => s
      | Option.some varId =>
          if pAssign then
            let assignmentId := "assign_" ++ entropy s.draws
            { s with
              nodes := s.nodes ++ [⟨assignmentId, "Assignment", "process", []⟩]
              edges := s.edges ++
                [⟨varId, assignmentId, Option.none, Option.some "data",
                  Option.none⟩]
              draws := s.draws + 1 }
          else s

/-- `FlowDiagramGenerator.generateDataFlow`. -/
def generateDataFlow (ast : JNode) (filePath : String)
    (entropy : Nat → String) : FlowDiagram :=
  let s := (dfEvents ast).foldl (dfStep entropy) ⟨[], [], [], 0⟩
  { nodes := s.nodes
    edges := s.edges
    metadata := ⟨"data_flow", "Data Flow - " ++ filePath, "数据流图"⟩ }

/-! ### Component tree -/

/-- The test `name[0] === name[0]?.toUpperCase()` (vacuously true on the
empty string, where both sides are `undefined`). -/
def capFirst (s : String) : Bool :=
  match s.data with
  | [] => true
  | c :: _ => c = c.toUpper

/-- `FlowDiagramGenerator.isReactComponent`: the derived function name is
nonempty with an uppercase-stable first character (`"Anonymous"` passes). -/
def isReactComponentFG (n : JNode) (parent : Option JNode) : Bool :=
  let nm := getFunctionNameFG n parent
  nm.length > 0 && capFirst nm

/-- `FlowDiagramGenerator.isReactClassComponent`: a class declaration whose
superclass is the member expression `React.Component`. -/
def isReactClassComponentFG : JNode → Bool
  | .classDecl _ (.some (.memberExpr (.ident o _) (.ident p _) _)) _ _ =>
      o = "React" && p = "Component"
  | _ => false

/-- The handler targets of `generateComponentTree`'s traversal, in
pre-order, with the name each will register under. -/
def collectCTComponents (ast : JNode) : List (JNode × Option JNode) :=
  (walk Option.none [] ast).filterMap fun v =>
    match v.node with
    | .funcDecl _ _ _ _ =>
        if isReactComponentFG v.node v.parent then Option.some (v.node, v.parent)
        else Option.none
    | .arrowFunc _ _ _ =>
        if isReactComponentFG v.node v.parent then Option.some (v.node, v.parent)
        else Option.none
    | .classDecl _ _ _ _ =>
        if isReactClassComponentFG v.node then Option.some (v.node, v.parent)
        else Option.none
    | _ => Option.none

/-- Tag names of all JSX elements inside a subtree, in pre-order (the
nested `traverse(path.node, { JSXElement })` of `analyzeComponentChildren`). -/
def jsxTags (n : JNode) : List String :=
  (walk Option.none [] n).filterMap fun v =>
    match v.node with
    | .jsxElement tag _ _ => Option.some tag
    | _ => Option.none

/-- State of `generateComponentTree`. -/
structure CTState where
  nodes : List FlowNode
  edges : List FlowEdge
  compMap : List (String × String)
deriving Repr

/-- `FlowDiagramGenerator.analyzeComponentChildren` over the subtree's JSX
tag list: a capitalized tag is a child component, created on first sight,
then linked from the parent component. -/
def ctChildren (componentId : String) (s : CTState) :
    List String → CTState
  | [] => s
  | tag :: rest =>
      if capFirst tag then
        let step : CTState × String := match mapGet s.compMap tag with
          | Option.some cid => (s, cid)
          | Option.none =>
              let cid := "comp_" ++ tag
              ({ s with
                  nodes := s.nodes ++ [(⟨cid, tag, "component", []⟩ : FlowNode)]
                  compMap := mapSet s.compMap tag cid }, cid)
        ctChildren componentId
          { step.1 with
            edges := step.1.edges ++
              [⟨componentId, step.2, Option.none, Option.some "dependency",
                Option.none⟩] } rest
      else ctChildren componentId s rest

/-- `FlowDiagramGenerator.addComponentNode` followed by
`analyzeComponentChildren` for one matched component.  `addComponentNode`
pushes its node unconditionally, even when the name is already mapped. -/
def ctStep (s : CTState) (fp : JNode × Option JNode) : CTState :=
  let nm := getFunctionNameFG fp.1 fp.2
  let componentId := "comp_" ++ nm
  let isFn := match fp.1 with
    | .funcDecl _ _ _ _ => true
    | .arrowFunc _ _ _ => true
    | _ => false
  let isCls := match fp.1 with
    | .classDecl _ _ _ _ => true
    | _ => false
  let s1 : CTState :=
    { s with
      nodes := s.nodes ++
        [⟨componentId, nm, "component",
          [("isFunctional", .bool isFn), ("isClass", .bool isCls)]⟩]
      compMap := mapSet s.compMap nm componentId }
  ctChildren componentId s1 (jsxTags fp.1)

/-- `FlowDiagramGenerator.generateComponentTree`. -/
def generateComponentTree (ast : JNode) (filePath : String) : FlowDiagram :=
  let s := (collectCTComponents ast).foldl ctStep ⟨[], [], []⟩
  { nodes := s.nodes
    edges := s.edges
    metadata := ⟨"component_tree", "Component Tree - " ++ filePath, "组件树图"⟩ }

/-! ### Dependency graph -/

/-- A file entry of the project info consumed by
`generateDependencyGraph`. -/
structure DepFile where
  fpath : String
  fname : String
  ftype : String
  fsize : Int
deriving DecidableEq, Repr

/-- A dependency entry. -/
structure DepEntry where
  dname : String
  dversion : String
  dtype : String
  usedIn : List String
deriving DecidableEq, Repr

/-- The slice of `ProjectInfo` that `generateDependencyGraph` reads. -/
structure ProjDeps where
  files : List DepFile
  dependencies : List DepEntry
deriving DecidableEq, Repr

/-- The sanitization `path.replace(/[^a-zA-Z0-9]/g, '_')`. -/
def sanitizeId (s : String) : String :=
  String.mk (s.data.map fun c => if c.isAlphanum then c else '_')

/-- `FlowDiagramGenerator.generateDependencyGraph`: one node per file, one
node per dependency, and one edge per `usedIn` path of a dependency —
targeting `file_<sanitized path>` whether or not such a file node exists. -/
def generateDependencyGraph (p : ProjDeps) : FlowDiagram :=
  let fileNodes : List FlowNode := p.files.map fun f =>
    (⟨"file_" ++ sanitizeId f.fpath, f.fname, "component",
      [("fileType", .str f.ftype), ("size", .num f.fsize)]⟩ : FlowNode)
  let depNodes : List FlowNode := p.dependencies.map fun d =>
    (⟨"dep_" ++ d.dname, d.dname, "data",
      [("version", .str d.dversion), ("type", .str d.dtype)]⟩ : FlowNode)
  let depEdges : List FlowEdge :=
    (p.dependencies.map fun d =>
      d.usedIn.map fun fp =>
        (⟨"dep_" ++ d.dname, "file_" ++ sanitizeId fp, Option.none,
          Option.some "dependency", Option.none⟩ : FlowEdge)).flatten
  { nodes := fileNodes ++ depNodes
    edges := depEdges
    metadata := ⟨"dependency_graph", "Dependency Graph", "项目依赖关系图"⟩ }

/-! ## FrontendCodeAnalyzer: error behavior

`analyzeProject` wraps filesystem access; the filesystem and the downstream
pipeline are external collaborators, passed here as an explicit environment.
The control flow of the source: a missing project path returns a default
(empty) `ProjectInfo` — the source comments this choice twice
("返回默认的项目信息而不是抛出错误") and the integration test asserts it —
an `ENOENT` error caught later does the same, and any other error is
wrapped in a `ParseError`.  `analyzeFile` parses the file and throws a
`ParseError` when parsing fails. -/

/-- The error class raised by the analyzer (`ParseError` of
`types/errors`). -/
inductive AnalysisErr where
  | parseError (msg : String)
deriving DecidableEq, Repr

/-- The slice of `ProjectInfo` relevant to the error-behavior claim. -/
structure ProjectInfoM where
  name : String
  ppath : String
  framework : String
  files : List String
  components : List String
  functions : List String
  pvariables : List String
  dependencies : List String
deriving DecidableEq, Repr

/-- `path.basename`: the characters after the last `/` (simplified: no
trailing-separator trimming, which the analyzed inputs do not contain). -/
def basename (p : String) : String :=
  String.mk ((p.data.reverse.takeWhile (fun c => c != '/')).reverse)

/-- The default (empty) `ProjectInfo` literal returned for a missing
project path. -/
def defaultProjectReturn (projectPath : String) : ProjectInfoM :=
  { name := basename projectPath
    ppath := projectPath
    framework := "unknown"
    files := []
    components := []
    functions := []
    pvariables := []
    dependencies := []}

/-- Outcome of the framework-detection/dependency/file pipeline, which
performs external I/O: success, an `ENOENT`-message error, or another
error. -/
inductive PipelineResult where
  | ok (p : ProjectInfoM)
  | enoentFail
  | otherFail (msg : String)
deriving Repr

/-- External environment of one `analyzeProject` call. -/
structure AnalyzerEnv where
  pathExists : Bool
  pipeline : PipelineResult

/-- Return-or-throw outcome of `analyzeProject`. -/
inductive PResult where
  | ok (p : ProjectInfoM)
  | err (e : AnalysisErr)
deriving DecidableEq, Repr

/-- `FrontendCodeAnalyzer.analyzeProject`. -/
def analyzeProject (projectPath : String) (env : AnalyzerEnv) : PResult :=
  if env.pathExists = false then .ok (defaultProjectReturn projectPath)
  else
    match env.pipeline with
    | .ok p => .ok p
    | .enoentFail => .ok (defaultProjectReturn projectPath)
    | .otherFail msg => .err (.parseError ("项目分析失败: " ++ msg))

/-- The per-file model built by `analyzeFile` (restricted to the variable
collection; the other analyzers are analogous consumers of the same tree). -/
structure FileInfoM where
  fpath : String
  fvariables : List VariableInfo
deriving DecidableEq, Repr

/-- Return-or-throw outcome of `analyzeFile`. -/
inductive FResult where
  | ok (f : FileInfoM)
  | err (e : AnalysisErr)
deriving DecidableEq, Repr

/-- `FrontendCodeAnalyzer.analyzeFile`: the upstream parse result is
external; a parse failure (or a null tree) is caught and rethrown as
`ParseError("文件解析失败: …")`. -/
def analyzeFile (filePath : String) (parseResult : Option JNode) : FResult :=
  match parseResult with
  | Option.none => .err (.parseError ("文件解析失败: " ++ filePath))
  | Option.some ast => .ok ⟨filePath, analyzeVariables ast filePath⟩

/-! ## ComponentAnalyzer: state analysis

The source file contains two `ComponentAnalyzer` classes.  Both have an
`analyzeState`; the first pairs `findUseStateCalls` (a limited recursion
that never enters function bodies) with an `extractStateNameFromCall` that
is hard-coded to return `undefined` ("简化实现，返回undefined"), the second
scans every `VariableDeclarator` via `traverseAST` (a full pre-order walk
over all child fields) for an array-pattern declarator initialized by a
direct `useState(...)` call. -/

/-- A `StateDefinition` (the `definitions` entries of `ComponentState`). -/
structure StateDef where
  sname : String
  stype : String
  initialValue : LitV
  isPrivate : Bool
  isReadonly : Bool
  location : Pos
deriving DecidableEq, Repr

/-- `ComponentAnalyzer.inferValueType` on the (possibly absent) first
`useState` argument. -/
def inferValueType : Option JNode → String
  | Option.some (.strLit _ _) => "string"
  | Option.some (.numLit _ _) => "number"
  | Option.some (.boolLit _ _) => "boolean"
  | Option.some (.arrayExpr _ _) => "array"
  | Option.some (.objectExpr _) => "object"
  | Option.some (.funcExpr _ _ _) => "function"
  | Option.some (.arrowFunc _ _ _) => "function"
  | _ => "any"

/-- `ComponentAnalyzer.extractDefaultValue` on the (possibly absent) first
`useState` argument. -/
def extractDefaultValueC : Option JNode → LitV
  | Option.some n =>
      if isLiteralNode n then literalValue n
      else
        match n with
        | .arrayExpr _ _ => .arrV
        | .objectExpr _ => .objV
        | _ => .undefV
  | Option.none => .undefV

/-- First element of an argument list (`callNode.arguments[0]`). -/
def argHead : JList → Option JNode
  | .nil => Option.none
  | .cons a _ => Option.some a

/-- The second implementation's `analyzeState`: its `traverseAST` visitor
fires on every variable declarator whose initializer is a direct
`useState(...)` call and whose pattern is a non-empty array pattern with an
identifier first element; neither the declaration keyword nor the presence
of a setter element is inspected. -/
def analyzeStateV2 (node : JNode) : List StateDef :=
  (walk Option.none [] node).filterMap fun v =>
    match v.node with
    | .varDeclarator (.arrayPattern (.cons (.ident nm _) _) _)
        (.some (.callExpr (.ident "useState" _) args _)) loc =>
        Option.some ⟨nm, inferValueType (argHead args),
          extractDefaultValueC (argHead args), false, false, loc⟩
    | _ => Option.none

mutual
/-- The first implementation's `findUseStateCalls`: collects direct
`useState(...)` calls, descending only through block bodies, `if`
branches, `for`/`while`/`do-while` bodies, `return` arguments and
conditional-expression branches. -/
def findUseStateCallsV1 : JNode → List JNode
  | .callExpr (.ident nm cloc) args loc =>
      if nm = "useState" then [.callExpr (.ident nm cloc) args loc] else []
  | .blockStmt body => findUseStateListV1 body
  | .ifStmt _ conseq alt =>
      findUseStateCallsV1 conseq ++ findUseStateOptV1 alt
  | .forStmt _ _ _ body => findUseStateCallsV1 body
  | .whileStmt _ body => findUseStateCallsV1 body
  | .doWhileStmt body _ => findUseStateCallsV1 body
  | .returnStmt arg => findUseStateOptV1 arg
  | .condExpr _ conseq alt _ =>
      findUseStateCallsV1 conseq ++ findUseStateCallsV1 alt
  | _ => []
/-- Descent of `findUseStateCalls` over a statement list. -/
def findUseStateListV1 : JList → List JNode
  | .nil => []
  | .cons s rest => findUseStateCallsV1 s ++ findUseStateListV1 rest
/-- Descent of `findUseStateCalls` over an optional child. -/
def findUseStateOptV1 : JOpt → List JNode
  | .none => []
  | .some n => findUseStateCallsV1 n
end

/-- The first implementation's `extractStateNameFromCall`: the source is
hard-coded to return `undefined`. -/
def extractStateNameFromCallV1 (_callNode : JNode) : Option String :=
  Option.none

/-- `callNode.arguments[0]` of a collected call. -/
def callArgHead : JNode → Option JNode
  | .callExpr _ args _ => argHead args
  | _ => Option.none

/-- The first implementation's `analyzeState`: one definition per collected
`useState` call that yields a state name — which `extractStateNameFromCall`
never does. -/
def analyzeStateV1 (node : JNode) : List StateDef :=
  (findUseStateCallsV1 node).foldr
    (fun c acc =>
      match extractStateNameFromCallV1 c with
      | Option.none => acc
      | Option.some nm =>
          ⟨nm, inferValueType (callArgHead c),
            extractDefaultValueC (callArgHead c), false, false, locOf c⟩ :: acc)
    []

/-! # Claim analysis -/

/-! ## C1: cyclomatic complexity -/

/-- The §8 scenario function:
`function f(x){ if (x>0) { if (x>10) return "a"; else return "b"; }
else if (x<0) return "c"; else return "d"; }`. -/
def c1ScenarioFn : JNode :=
  .funcDecl (.some (.ident "f" ⟨1, 9⟩)) (.cons (.ident "x" ⟨1, 11⟩) .nil)
    (.blockStmt (.cons
      (.ifStmt (.binExpr ">" (.ident "x" ⟨1, 20⟩) (.numLit 0 ⟨1, 22⟩) ⟨1, 20⟩)
        (.blockStmt (.cons
          (.ifStmt (.binExpr ">" (.ident "x" ⟨1, 31⟩) (.numLit 10 ⟨1, 33⟩) ⟨1, 31⟩)
            (.returnStmt (.some (.strLit "a" ⟨1, 44⟩)))
            (.some (.returnStmt (.some (.strLit "b" ⟨1, 61⟩)))))
          .nil))
        (.some (.ifStmt
          (.binExpr "<" (.ident "x" ⟨1, 77⟩) (.numLit 0 ⟨1, 79⟩) ⟨1, 77⟩)
          (.returnStmt (.some (.strLit "c" ⟨1, 89⟩)))
          (.some (.returnStmt (.some (.strLit "d" ⟨1, 105⟩)))))))
      .nil))
    ⟨1, 0⟩

/-- A function containing one `catch` clause (one claimed decision point):
`function g(){ try {} catch (e) {} }`. -/
def c1CatchFn : JNode :=
  .funcDecl (.some (.ident "g" ⟨1, 9⟩)) .nil
    (.blockStmt (.cons
      (.tryStmt (.blockStmt .nil)
        (.some (.catchClause (.some (.ident "e" ⟨1, 28⟩))
          (.blockStmt .nil))))
      .nil))
    ⟨1, 0⟩

/-- C1.  The claim fails on the code and the code contradicts its own unit
test (`FunctionAnalyzer.test.ts` expects `complexity > 1` on exactly the
scenario function): `FunctionAnalyzer.calculateComplexity` returns 1 on the
scenario function, because `findComplexityNodes`' recursion never enters a
function body (nor a `try` statement or an expression position, making the
`catch`/`&&`/`||` hits unreachable in practice).
`VariableTracker.calculateComplexity` does return 4 on the scenario but
counts no `catch` clause: on the one-catch function both implementations
return 1 where the claimed counting rule demands 2.  Both do return
integers `>= 1` on every subtree. -/
theorem c1_complexity_diverges_from_claimed_rule :
    calculateComplexityFn c1ScenarioFn = 1 ∧
    calculateComplexityVar c1ScenarioFn = 4 ∧
    calculateComplexityFn c1CatchFn = 1 ∧
    calculateComplexityVar c1CatchFn = 1 ∧
    (∀ n : JNode, 1 ≤ calculateComplexityFn n) ∧
    (∀ n : JNode, 1 ≤ calculateComplexityVar n) := by
  refine ⟨by decide, by decide, by decide, by decide, ?_, ?_⟩
  · intro n
    exact Nat.le_add_right 1 _
  · intro n
    unfold calculateComplexityVar
    split <;> omega

/-! ## C6: scope resolution -/

/-- C6.  `determineScope` is total over `{module, function, class}` (never
`block`), and resolves a top-level declarator to `module` and a declarator
inside a plain function to `function` as claimed; but a declarator inside a
class method resolves to `function`, not `class` — the class tests only
ever reach the path's own node (the `.parent` climb immediately dies, see
`determineScope`'s section comment), while Babel's `getFunctionParent`
matches the enclosing `ClassMethod`, which is in the `Function` alias.  The
repo's own unit test (`VariableTracker.test.ts`) expects `class` for a
constructor-local variable. -/
theorem c6_determineScope_classMethod_resolves_to_function :
    (∀ s a, determineScope s a = .module ∨ determineScope s a = .function ∨
      determineScope s a = .cls) ∧
    determineScope .varDeclarator [.varDeclaration, .program] = .module ∧
    determineScope .varDeclarator
      [.varDeclaration, .blockStmt, .funcDecl, .program] = .function ∧
    determineScope .varDeclarator
      [.varDeclaration, .blockStmt, .classMethod, .classBody, .classDecl,
       .blockStmt, .funcDecl, .program] = .function := by
  refine ⟨?_, by decide, by decide, by decide⟩
  intro s a
  unfold determineScope
  split
  · exact Or.inr (Or.inr rfl)
  · split
    · exact Or.inr (Or.inl rfl)
    · exact Or.inl rfl

/-! ## C3: node-id uniqueness -/

/-- A program with two plain expression statements: `x; y;`. -/
def c3TwoStmts : JNode :=
  .program (.cons (.exprStmt (.ident "x" ⟨1, 0⟩))
    (.cons (.exprStmt (.ident "y" ⟨2, 0⟩)) .nil))

/-- C3.  The id counter is passed by value into the emission helpers, so
the `nodeId++` of one statement is invisible to its sibling: both top-level
statements receive id `stmt_1`, and the node-id list of the synthesized
control-flow graph is not duplicate-free. -/
theorem c3_controlFlow_duplicate_node_ids :
    ((generateControlFlow c3TwoStmts "test.js").nodes.map FlowNode.id)
      = ["start", "program_0", "stmt_1", "stmt_1", "end"] ∧
    ¬ ((generateControlFlow c3TwoStmts "test.js").nodes.map
        FlowNode.id).Nodup := by
  exact ⟨by decide, by decide⟩

/-! ## C2: idempotence of flow synthesis -/

/-- A tree with a declaration and a subsequent assignment:
`var x; x = 1;`. -/
def c2AssignTree : JNode :=
  .program (.cons
    (.varDeclaration .dVar (.cons
      (.varDeclarator (.ident "x" ⟨1, 4⟩) .none ⟨1, 4⟩) .nil))
    (.cons (.exprStmt
      (.assignExpr (.ident "x" ⟨2, 0⟩) (.numLit 1 ⟨2, 4⟩) ⟨2, 0⟩)) .nil))

/-- C2 counterexample.  Data-flow assignment-node ids are
`assign_${Date.now()}_${Math.random()}`: two calls of `generateDataFlow` on
the unchanged tree observe different clock/random draws (here the concrete
draws `"1700_05"` and `"1701_07"`) and return structurally different node
sets — no call-scoped counter is involved. -/
theorem c2_dataFlow_not_idempotent :
    generateDataFlow c2AssignTree "test.js" (fun _ => "1700_05") ≠
      generateDataFlow c2AssignTree "test.js" (fun _ => "1701_07") := by
  decide

/-! ## C5: error behavior on missing/unparsable input -/

/-- C5 counterexample.  A nonexistent project path does not raise: it
returns the default empty project model (name `path`, framework `unknown`,
all collections empty — exactly what the integration test asserts),
regardless of the downstream pipeline. -/
theorem c5_missing_path_returns_default_empty :
    analyzeProject "/invalid/path" ⟨false, .otherFail "unused"⟩ =
      .ok (defaultProjectReturn "/invalid/path") ∧
    defaultProjectReturn "/invalid/path" =
      ⟨"path", "/invalid/path", "unknown", [], [], [], [], []⟩ := by
  exact ⟨by decide, by decide⟩

/-- C5 amended.  A file that fails to parse raises a distinguishable
`ParseError` from `analyzeFile`; `analyzeProject` on a missing path returns
the default empty model without error; any non-`ENOENT` pipeline failure is
wrapped in a distinguishable `ParseError`. -/
theorem c5_error_behavior :
    (∀ fp : String, analyzeFile fp Option.none =
      .err (.parseError ("文件解析失败: " ++ fp))) ∧
    (∀ (p : String) (pipe : PipelineResult),
      analyzeProject p ⟨false, pipe⟩ = .ok (defaultProjectReturn p)) ∧
    (∀ (p msg : String), analyzeProject p ⟨true, .otherFail msg⟩ =
      .err (.parseError ("项目分析失败: " ++ msg))) := by
  exact ⟨fun _ => rfl, fun _ _ => rfl, fun _ _ => rfl⟩

/-! ## C8: state-binding recognition -/

/-- The §8 scenario: `const [count, setCount] = useState(0)` inside the
body of a component function `Counter`. -/
def c8Scenario : JNode :=
  .funcDecl (.some (.ident "Counter" ⟨3, 9⟩)) .nil
    (.blockStmt (.cons
      (.varDeclaration .dConst (.cons
        (.varDeclarator
          (.arrayPattern (.cons (.ident "count" ⟨4, 9⟩)
            (.cons (.ident "setCount" ⟨4, 16⟩) .nil)) ⟨4, 8⟩)
          (.some (.callExpr (.ident "useState" ⟨4, 29⟩)
            (.cons (.numLit 0 ⟨4, 38⟩) .nil) ⟨4, 29⟩))
          ⟨4, 8⟩)
        .nil))
      (.cons (.returnStmt (.some (.jsxElement "div" .nil ⟨5, 4⟩))) .nil)))
    ⟨3, 0⟩

/-- A binding outside the claimed `const [x, setX]` shape:
`var [count] = useState(0)` (keyword `var`, no setter element). -/
def c8VarSingle : JNode :=
  .funcDecl (.some (.ident "Counter" ⟨3, 9⟩)) .nil
    (.blockStmt (.cons
      (.varDeclaration .dVar (.cons
        (.varDeclarator
          (.arrayPattern (.cons (.ident "count" ⟨4, 5⟩) .nil) ⟨4, 4⟩)
          (.some (.callExpr (.ident "useState" ⟨4, 15⟩)
            (.cons (.numLit 0 ⟨4, 24⟩) .nil) ⟨4, 15⟩))
          ⟨4, 4⟩)
        .nil))
      .nil))
    ⟨3, 0⟩

/-- C8 counterexample.  The first `ComponentAnalyzer` implementation
recognizes no state at all on the exact scenario (its
`extractStateNameFromCall` is hard-coded to `undefined`), and the second
implementation recognizes `var [count] = useState(0)` — a binding outside
the claimed "`const [x, setX]` only" shape, since neither the declaration
keyword nor a setter element is inspected. -/
theorem c8_state_recognition_counterexample :
    analyzeStateV1 c8Scenario = [] ∧
    analyzeStateV2 c8VarSingle =
      [⟨"count", "number", .num 0, false, false, ⟨4, 4⟩⟩] := by
  exact ⟨by decide, by decide⟩

/-- C8 amended.  Under the second implementation, the scenario
`const [count, setCount] = useState(0)` yields exactly one StateDefinition
named `count` with inferred type `number` and initial value `0`. -/
theorem c8_useState_scenario_v2 :
    analyzeStateV2 c8Scenario =
      [⟨"count", "number", .num 0, false, false, ⟨4, 8⟩⟩] := by
  decide

/-! ## C7/C10: store invariants of the usage fold -/

/-- Invariant of every store entry: the count mirrors the list length, the
`lastUsedAt` is the last appended record's location, and every record's
`isRead` is the negation of its `isAssignment`. -/
def goodInfo (v : VariableInfo) : Prop :=
  v.usageCount = v.usage.length ∧
  v.lastUsedAt = v.usage.getLast?.map UsageRec.location ∧
  ∀ u ∈ v.usage, u.isRead = !u.isAssignment

theorem mkUsage_read_not_assignment (o : Occ) :
    (mkUsage o).isRead = !(mkUsage o).isAssignment := by
  simp [mkUsage, isReadOcc, isAssignmentOcc]

theorem pushUsage_good {v : VariableInfo} (h : goodInfo v) (o : Occ) :
    goodInfo (pushUsage (mkUsage o) v) := by
  obtain ⟨h1, h2, h3⟩ := h
  refine ⟨by simp [pushUsage, h1], by simp [pushUsage], ?_⟩
  intro u hu
  simp only [pushUsage, List.mem_append, List.mem_singleton] at hu
  rcases hu with hu | rfl
  · exact h3 u hu
  · exact mkUsage_read_not_assignment o

theorem updateAt_mem {l : List α} {v : α} (i : Nat) (f : α → α)
    (h : v ∈ updateAt i f l) : v ∈ l ∨ ∃ w ∈ l, v = f w := by
  induction l generalizing i with
  | nil => simp [updateAt] at h
  | cons a l ih =>
    cases i with
    | zero =>
      simp only [updateAt, List.mem_cons] at h
      rcases h with rfl | h
      · exact Or.inr ⟨a, List.mem_cons_self a l, rfl⟩
      · exact Or.inl (List.mem_cons_of_mem a h)
    | succ j =>
      simp only [updateAt, List.mem_cons] at h
      rcases h with rfl | h
      · exact Or.inl (List.mem_cons_self v l)
      · rcases ih j h with h' | ⟨w, hw, rfl⟩
        · exact Or.inl (List.mem_cons_of_mem a h')
        · exact Or.inr ⟨w, List.mem_cons_of_mem a hw, rfl⟩

theorem applyOcc_good {store : List VariableInfo}
    (idx : String → Option Nat) (o : Occ)
    (h : ∀ v ∈ store, goodInfo v) :
    ∀ v ∈ applyOcc idx store o, goodInfo v := by
  intro v hv
  unfold applyOcc at hv
  split at hv
  · exact h v hv
  · rcases updateAt_mem _ _ hv with h' | ⟨w, hw, rfl⟩
    · exact h v h'
    · exact pushUsage_good (h w hw) o

theorem fold_good (idx : String → Option Nat) (occs : List Occ)
    (store : List VariableInfo) (h : ∀ v ∈ store, goodInfo v) :
    ∀ v ∈ occs.foldl (applyOcc idx) store, goodInfo v := by
  induction occs generalizing store with
  | nil => exact h
  | cons o os ih => exact ih (applyOcc idx store o) (applyOcc_good idx o h)

theorem good_createVariableInfo (n : JNode) (p : Option JNode)
    (anc : List BK) (ty : String) :
    goodInfo (createVariableInfo n p anc ty) := by
  unfold goodInfo createVariableInfo
  refine ⟨rfl, rfl, ?_⟩
  intro u hu
  cases hu

theorem seeds_good (ast : JNode) : ∀ v ∈ collectSeeds ast, goodInfo v := by
  intro v hv
  simp only [collectSeeds, List.mem_filterMap] at hv
  obtain ⟨a, _, ha⟩ := hv
  split at ha <;>
    first
      | ((injection ha with ha) <;>
          (subst ha; exact good_createVariableInfo _ _ _ _))
      | (split at ha <;>
          first
            | ((injection ha with ha) <;>
                (subst ha; exact good_createVariableInfo _ _ _ _))
            | (exact Option.noConfusion ha))
      | (exact Option.noConfusion ha)

theorem analyzeVariables_good (ast : JNode) (fp : String) :
    ∀ v ∈ analyzeVariables ast fp, goodInfo v := by
  intro v hv
  simp only [analyzeVariables] at hv
  exact fold_good _ _ _ (seeds_good ast) v hv

/-- C7.  Every descriptor returned by `analyzeVariables` satisfies
`usageCount = usage.length`, and `lastUsedAt` is the location of the most
recently appended usage record (`none` when the list is empty, since
`getLast?` of `[]` is `none`). -/
theorem c7_usage_count_and_lastUsedAt (ast : JNode) (fp : String) :
    ∀ v ∈ analyzeVariables ast fp,
      v.usageCount = v.usage.length ∧
      v.lastUsedAt = v.usage.getLast?.map UsageRec.location := by
  intro v hv
  obtain ⟨h1, h2, _⟩ := analyzeVariables_good ast fp v hv
  exact ⟨h1, h2⟩

/-- Tree for the C7 witness: `const a = 1; a = 2;`. -/
def c7Tree : JNode :=
  .program (.cons
    (.varDeclaration .dConst (.cons
      (.varDeclarator (.ident "a" ⟨1, 6⟩) (.some (.numLit 1 ⟨1, 10⟩)) ⟨1, 6⟩)
      .nil))
    (.cons (.exprStmt
      (.assignExpr (.ident "a" ⟨2, 0⟩) (.numLit 2 ⟨2, 4⟩) ⟨2, 0⟩)) .nil))

/-- Fallback descriptor for `List.getD` in witnesses. -/
def fbInfo : VariableInfo :=
  createVariableInfo (.numLit 0 ⟨0, 0⟩) Option.none [] "variable"

theorem getD_mem_of_lt {l : List α} (i : Nat) (fb : α) (h : i < l.length) :
    l.getD i fb ∈ l := by
  induction l generalizing i with
  | nil => cases h
  | cons a l ih =>
    cases i with
    | zero => exact List.mem_cons_self a l
    | succ j =>
      exact List.mem_cons_of_mem a (ih j (Nat.lt_of_succ_lt_succ h))

theorem c7_witness :
    ((analyzeVariables c7Tree "t").getD 0 fbInfo).usageCount =
      ((analyzeVariables c7Tree "t").getD 0 fbInfo).usage.length ∧
    ((analyzeVariables c7Tree "t").getD 0 fbInfo).lastUsedAt =
      ((analyzeVariables c7Tree "t").getD 0 fbInfo).usage.getLast?.map
        UsageRec.location :=
  c7_usage_count_and_lastUsedAt c7Tree "t" _
    (getD_mem_of_lt 0 fbInfo (by decide))

/-- C10.  In every usage record of every returned descriptor, `isRead` is
the exact boolean negation of `isAssignment`; and on any occurrence the two
facets are computed solely from whether the immediate parent is an
assignment expression. -/
theorem c10_isRead_negates_isAssignment (ast : JNode) (fp : String) :
    (∀ v ∈ analyzeVariables ast fp, ∀ u ∈ v.usage,
      u.isRead = !u.isAssignment) ∧
    (∀ o : Occ, (mkUsage o).isAssignment = isAssignmentOcc o.parentK ∧
      (mkUsage o).isRead = !(isAssignmentOcc o.parentK)) := by
  refine ⟨?_, fun o => ⟨rfl, by simp [mkUsage, isReadOcc, isAssignmentOcc]⟩⟩
  intro v hv
  exact (analyzeVariables_good ast fp v hv).2.2

/-- Tree for the C10 witness: `let b = 1; b = 2; f(b);`. -/
def c10Tree : JNode :=
  .program (.cons
    (.varDeclaration .dLet (.cons
      (.varDeclarator (.ident "b" ⟨1, 4⟩) (.some (.numLit 1 ⟨1, 8⟩)) ⟨1, 4⟩)
      .nil))
    (.cons (.exprStmt
      (.assignExpr (.ident "b" ⟨2, 0⟩) (.numLit 2 ⟨2, 4⟩) ⟨2, 0⟩))
    (.cons (.exprStmt
      (.callExpr (.ident "f" ⟨3, 0⟩) (.cons (.ident "b" ⟨3, 2⟩) .nil) ⟨3, 0⟩))
      .nil)))

/-! ## C2 amended: data-flow synthesis is entropy-independent exactly when
no assignment node is emitted -/

/-- Number of clock/random draws a data-flow synthesis performs (computed
with a canonical entropy source; shown below to be entropy-independent). -/
def dfDraws (ast : JNode) : Nat :=
  ((dfEvents ast).foldl (dfStep (fun _ => "")) ⟨[], [], [], 0⟩).draws

theorem dfStep_draws_le (ent : Nat → String) (s : DFState) (ev : DFEv) :
    s.draws ≤ (dfStep ent s ev).draws := by
  cases ev with
  | decl nm k val => simp [dfStep]
  | idOcc nm pa =>
    simp only [dfStep]
    split
    · exact Nat.le_refl _
    · split
      · exact Nat.le_succ _
      · exact Nat.le_refl _

theorem df_fold_draws_le (ent : Nat → String) (evs : List DFEv)
    (s : DFState) : s.draws ≤ (evs.foldl (dfStep ent) s).draws := by
  induction evs generalizing s with
  | nil => exact Nat.le_refl _
  | cons ev rest ih =>
    exact Nat.le_trans (dfStep_draws_le ent s ev) (ih (dfStep ent s ev))

theorem dfStep_equiv (e1 e2 : Nat → String) {s1 s2 : DFState} (ev : DFEv)
    (hm : s1.varMap = s2.varMap) (hd : s1.draws = s2.draws) :
    (dfStep e1 s1 ev).varMap = (dfStep e2 s2 ev).varMap ∧
    (dfStep e1 s1 ev).draws = (dfStep e2 s2 ev).draws := by
  cases ev with
  | decl nm k val => simp [dfStep, hm, hd]
  | idOcc nm pa =>
    simp only [dfStep, hm]
    cases hget : mapGet s2.varMap nm with
    | none => simp [hm, hd]
    | some varId =>
      cases pa with
      | false => simp [hm, hd]
      | true => simp [hm, hd]

theorem df_fold_equiv (e1 e2 : Nat → String) (evs : List DFEv)
    {s1 s2 : DFState} (hm : s1.varMap = s2.varMap)
    (hd : s1.draws = s2.draws) :
    (evs.foldl (dfStep e1) s1).draws = (evs.foldl (dfStep e2) s2).draws := by
  induction evs generalizing s1 s2 with
  | nil => exact hd
  | cons ev rest ih =>
    obtain ⟨hm', hd'⟩ := dfStep_equiv e1 e2 ev hm hd
    exact ih hm' hd'

theorem dfStep_eq_of_no_draw (e1 e2 : Nat → String) (s : DFState) (ev : DFEv)
    (h : (dfStep e1 s ev).draws = s.draws) :
    dfStep e1 s ev = dfStep e2 s ev := by
  cases ev with
  | decl nm k val => rfl
  | idOcc nm pa =>
    simp only [dfStep] at h ⊢
    cases hget : mapGet s.varMap nm with
    | none => rfl
    | some varId =>
      cases pa with
      | false => simp [hget]
      | true =>
        rw [hget] at h
        simp only [if_true] at h
        omega

theorem df_fold_eq_of_no_draws (e1 e2 : Nat → String) (evs : List DFEv)
    (s : DFState) (h : (evs.foldl (dfStep e1) s).draws = s.draws) :
    evs.foldl (dfStep e1) s = evs.foldl (dfStep e2) s := by
  induction evs generalizing s with
  | nil => rfl
  | cons ev rest ih =>
    simp only [List.foldl_cons] at h ⊢
    have hstep : (dfStep e1 s ev).draws = s.draws := by
      have h1 := dfStep_draws_le e1 s ev
      have h2 := df_fold_draws_le e1 rest (dfStep e1 s ev)
      omega
    rw [← dfStep_eq_of_no_draw e1 e2 s ev hstep]
    exact ih (dfStep e1 s ev) (by omega)

/-- C2 amended.  The control-flow and component-tree synthesizers are plain
functions of the input tree (no ambient input in their signatures), and the
data-flow synthesizer is independent of the clock/random entropy source —
hence idempotent — exactly on trees where it draws no entropy, i.e. where
no identifier occurrence with an assignment-expression parent refers to an
already-declared variable. -/
theorem c2_flow_synthesis_idempotence (ast : JNode) (fp : String)
    (e1 e2 : Nat → String) (h : dfDraws ast = 0) :
    generateDataFlow ast fp e1 = generateDataFlow ast fp e2 := by
  have hd1 : ((dfEvents ast).foldl (dfStep e1) ⟨[], [], [], 0⟩).draws = 0 := by
    have := @df_fold_equiv e1 (fun _ => "") (dfEvents ast)
      ⟨[], [], [], 0⟩ ⟨[], [], [], 0⟩ rfl rfl
    rw [this]
    exact h
  have := df_fold_eq_of_no_draws e1 e2 (dfEvents ast) ⟨[], [], [], 0⟩ hd1
  simp only [generateDataFlow, this]

/-- Tree with a declaration but no assignment: `var y = 1; f(y);`. -/
def c2NoAssignTree : JNode :=
  .program (.cons
    (.varDeclaration .dVar (.cons
      (.varDeclarator (.ident "y" ⟨1, 4⟩) (.some (.numLit 1 ⟨1, 8⟩)) ⟨1, 4⟩)
      .nil))
    (.cons (.exprStmt
      (.callExpr (.ident "f" ⟨2, 0⟩) (.cons (.ident "y" ⟨2, 2⟩) .nil) ⟨2, 0⟩))
      .nil))

theorem c2_witness :
    dfDraws c2NoAssignTree = 0 ∧
    generateDataFlow c2NoAssignTree "test.js" (fun _ => "1700_05") =
      generateDataFlow c2NoAssignTree "test.js" (fun _ => "1701_07") :=
  ⟨by decide,
    c2_flow_synthesis_idempotence c2NoAssignTree "test.js" _ _ (by decide)⟩

/-! ## C9 machinery: the traversal visits the declaration identifier

The Babel `Identifier` visitor of `analyzeVariableUsage` fires on the `id`
identifier of a variable declarator itself.  In the embedding this is the
fact that `walk` visits every child of every visited node; the lemmas
below establish it once, through a children-list presentation of `walk`. -/

/-- Child list of a `JList`. -/
def jlistToList : JList → List JNode
  | .nil => []
  | .cons hd tl => hd :: jlistToList tl

/-- Child list of a `JOpt`. -/
def joptToList : JOpt → List JNode
  | .none => []
  | .some n => [n]

theorem walkList_eq_flatMap (p : Option JNode) (anc : List BK) :
    ∀ l : JList, walkList p anc l = (jlistToList l).flatMap (walk p anc)
  | .nil => rfl
  | .cons hd tl => by
      simp [walkList, jlistToList, List.flatMap_cons,
        walkList_eq_flatMap p anc tl]

theorem walkOpt_eq_flatMap (p : Option JNode) (anc : List BK) (o : JOpt) :
    walkOpt p anc o = (joptToList o).flatMap (walk p anc) := by
  cases o <;> simp [walkOpt, joptToList]

/-- The direct children of a node, in the traversal's field order. -/
def kidsL : JNode → List JNode
  | .program body => jlistToList body
  | .exprStmt e => [e]
  | .blockStmt body => jlistToList body
  | .ifStmt t c a => [t, c] ++ joptToList a
  | .forStmt i t u b => joptToList i ++ joptToList t ++ joptToList u ++ [b]
  | .forInStmt l r b => [l, r, b]
  | .forOfStmt l r b => [l, r, b]
  | .whileStmt t b => [t, b]
  | .doWhileStmt b t => [b, t]
  | .switchStmt d cs => d :: jlistToList cs
  | .switchCase t cs => joptToList t ++ jlistToList cs
  | .tryStmt b h => b :: joptToList h
  | .catchClause p b => joptToList p ++ [b]
  | .returnStmt a => joptToList a
  | .varDeclaration _ ds => jlistToList ds
  | .varDeclarator i ini _ => i :: joptToList ini
  | .funcDecl i ps b _ => joptToList i ++ jlistToList ps ++ [b]
  | .funcExpr ps b _ => jlistToList ps ++ [b]
  | .arrowFunc ps b _ => jlistToList ps ++ [b]
  | .classDecl i s b _ => joptToList i ++ joptToList s ++ jlistToList b
  | .ident _ _ => []
  | .numLit _ _ => []
  | .strLit _ _ => []
  | .boolLit _ _ => []
  | .arrayExpr es _ => jlistToList es
  | .objectExpr _ => []
  | .arrayPattern es _ => jlistToList es
  | .assignExpr l r _ => [l, r]
  | .callExpr c as _ => c :: jlistToList as
  | .memberExpr o pr _ => [o, pr]
  | .condExpr t c a _ => [t, c, a]
  | .logicalExpr _ l r _ => [l, r]
  | .binExpr _ l r _ => [l, r]
  | .jsxElement _ cs _ => jlistToList cs

theorem walk_unfold (p : Option JNode) (anc : List BK) (n : JNode) :
    walk p anc n = ⟨n, p, anc⟩ ::
      (kidsL n).flatMap (walk (Option.some n) (kindOf n :: anc)) := by
  cases n <;>
    simp [walk, kidsL, kindOf, walkList_eq_flatMap, walkOpt_eq_flatMap,
      List.flatMap_cons, List.flatMap_append, List.flatMap_nil,
      List.append_assoc]

theorem sizeOf_mem_jlist {c : JNode} :
    ∀ (l : JList), c ∈ jlistToList l → sizeOf c < sizeOf l
  | .nil, h => by cases h
  | .cons hd tl, h => by
      rcases List.mem_cons.mp h with rfl | h'
      · simp <;> omega
      · have h2 := sizeOf_mem_jlist tl h'
        simp <;> omega

theorem sizeOf_mem_jopt {c : JNode} (o : JOpt) (h : c ∈ joptToList o) :
    sizeOf c < sizeOf o := by
  cases o with
  | none => cases h
  | some n =>
    rcases List.mem_singleton.mp h with rfl
    simp <;> omega

theorem kidsL_sizeOf (n : JNode) (c : JNode) (hc : c ∈ kidsL n) :
    sizeOf c < sizeOf n := by
  cases n <;>
    simp only [kidsL, List.mem_append, List.mem_cons, List.mem_singleton,
      List.not_mem_nil, or_false, false_or, or_assoc] at hc <;>
    repeat' (rcases hc with hc | hc)
  all_goals first
    | (cases hc)
    | (simp <;> omega)
    | (have h2 := sizeOf_mem_jlist _ hc; simp <;> omega)
    | (have h2 := sizeOf_mem_jopt _ hc; simp <;> omega)

/-- The visits of the children of a visited node. -/
def kidsVisits (v : Visit) : List Visit :=
  (kidsL v.node).flatMap (walk (Option.some v.node) (kindOf v.node :: v.anc))

theorem jnode_sizeOf_pos (n : JNode) : 0 < sizeOf n := by
  cases n <;> (simp <;> omega)

/-- Every visited node's children visits are themselves in the walk. -/
theorem walk_sub (n : JNode) (p : Option JNode) (anc : List BK) (v : Visit)
    (hv : v ∈ walk p anc n) : ∀ w ∈ kidsVisits v, w ∈ walk p anc n := by
  have H : ∀ (k : Nat) (n : JNode), sizeOf n ≤ k →
      ∀ (p : Option JNode) (anc : List BK) (v : Visit), v ∈ walk p anc n →
      ∀ w ∈ kidsVisits v, w ∈ walk p anc n := by
    intro k
    induction k with
    | zero =>
      intro n hn
      exact absurd hn (by have := jnode_sizeOf_pos n; omega)
    | succ k ih =>
      intro n hn p anc v hv w hw
      rw [walk_unfold] at hv
      rcases List.mem_cons.mp hv with rfl | hv'
      · rw [walk_unfold]
        exact List.mem_cons_of_mem _ (by simpa [kidsVisits] using hw)
      · rw [walk_unfold]
        refine List.mem_cons_of_mem _ ?_
        rcases List.mem_flatMap.mp hv' with ⟨c, hc, hvc⟩
        have hsz : sizeOf c ≤ k := by
          have := kidsL_sizeOf n c hc
          omega
        exact List.mem_flatMap.mpr ⟨c, hc, ih c hsz _ _ v hvc w hw⟩
  exact H (sizeOf n) n (Nat.le_refl _) p anc v hv

/-- If a declarator with identifier pattern `(nm, loc)` is in the tree,
then the usage traversal visits that identifier, with the declarator as its
immediate parent. -/
theorem declId_occ (ast : JNode) (nm : String) (loc : Pos)
    (h : (nm, loc) ∈ declaratorIdOccs ast) :
    (⟨nm, loc, .varDeclarator⟩ : Occ) ∈ collectOccs ast := by
  simp only [declaratorIdOccs, List.mem_filterMap] at h
  obtain ⟨v, hv, hmatch⟩ := h
  split at hmatch
  · rename_i x nm2 loc2 ini l heq
    injection hmatch with hmatch
    have h1 : nm2 = nm := congrArg Prod.fst hmatch
    have h2 : loc2 = loc := congrArg Prod.snd hmatch
    subst h1
    subst h2
    have hkid : (JNode.ident nm2 loc2) ∈ kidsL v.node := by
      rw [heq]
      exact List.mem_cons_self _ _
    have hw : (⟨.ident nm2 loc2, Option.some v.node,
        kindOf v.node :: v.anc⟩ : Visit) ∈ kidsVisits v := by
      refine List.mem_flatMap.mpr ⟨.ident nm2 loc2, hkid, ?_⟩
      rw [walk_unfold]
      exact List.mem_cons_self _ _
    have hwalk := walk_sub ast Option.none [] v hv _ hw
    simp only [collectOccs, List.mem_filterMap]
    refine ⟨_, hwalk, ?_⟩
    simp [heq, kindOf]
  · exact Option.noConfusion hmatch

/-- If a declarator with identifier pattern `(nm, loc)` is in the tree,
`analyzeVariables` extracts a seed named `nm` for it. -/
theorem declId_seed (ast : JNode) (nm : String) (loc : Pos)
    (h : (nm, loc) ∈ declaratorIdOccs ast) :
    ∃ s ∈ collectSeeds ast, s.name = nm := by
  simp only [declaratorIdOccs, List.mem_filterMap] at h
  obtain ⟨v, hv, hmatch⟩ := h
  split at hmatch
  · rename_i x nm2 loc2 ini l heq
    injection hmatch with hmatch
    have h1 : nm2 = nm := congrArg Prod.fst hmatch
    subst h1
    refine ⟨createVariableInfo v.node v.parent v.anc "variable", ?_, ?_⟩
    · simp only [collectSeeds, List.mem_filterMap]
      exact ⟨v, hv, by rw [heq]⟩
    · rw [heq]
      rfl
  · exact Option.noConfusion hmatch

theorem lastIdxOf_sound :
    ∀ (l : List VariableInfo) (nm : String) (i : Nat),
      lastIdxOf l nm = Option.some i →
      ∃ h : i < l.length, (l.get ⟨i, h⟩).name = nm := by
  intro l
  induction l with
  | nil => intro nm i h; cases h
  | cons s rest ih =>
    intro nm i h
    simp only [lastIdxOf] at h
    cases hr : lastIdxOf rest nm with
    | some j =>
      rw [hr] at h
      injection h with h
      subst h
      obtain ⟨hj, hn⟩ := ih nm j hr
      exact ⟨Nat.succ_lt_succ hj, hn⟩
    | none =>
      rw [hr] at h
      by_cases hs : s.name = nm
      · rw [if_pos hs] at h
        injection h with h
        subst h
        exact ⟨Nat.succ_pos _, hs⟩
      · rw [if_neg hs] at h
        exact Option.noConfusion h

theorem lastIdxOf_complete :
    ∀ (l : List VariableInfo) (nm : String), (∃ s ∈ l, s.name = nm) →
      ∃ i, lastIdxOf l nm = Option.some i := by
  intro l
  induction l with
  | nil => intro nm ⟨s, hs, _⟩; cases hs
  | cons a rest ih =>
    intro nm ⟨s, hs, hname⟩
    simp only [lastIdxOf]
    cases hr : lastIdxOf rest nm with
    | some j => exact ⟨j + 1, rfl⟩
    | none =>
      rcases List.mem_cons.mp hs with rfl | hs'
      · rw [if_pos hname]
        exact ⟨0, rfl⟩
      · obtain ⟨j, hj⟩ := ih nm ⟨s, hs', hname⟩
        rw [hj] at hr
        exact Option.noConfusion hr

theorem updateAt_length (i : Nat) (f : α → α) :
    ∀ l : List α, (updateAt i f l).length = l.length := by
  intro l
  induction l generalizing i with
  | nil => simp [updateAt]
  | cons a l ih =>
    cases i with
    | zero => rfl
    | succ j => simpa [updateAt] using ih j

theorem applyOcc_length (idx : String → Option Nat)
    (store : List VariableInfo) (o : Occ) :
    (applyOcc idx store o).length = store.length := by
  unfold applyOcc
  split
  · rfl
  · exact updateAt_length _ _ _

theorem fold_length (idx : String → Option Nat) (occs : List Occ)
    (store : List VariableInfo) :
    (occs.foldl (applyOcc idx) store).length = store.length := by
  induction occs generalizing store with
  | nil => rfl
  | cons o os ih => simpa [applyOcc_length] using ih (applyOcc idx store o)

theorem updateAt_getD_self (i : Nat) (f : α → α) (fb : α) :
    ∀ l : List α, i < l.length →
      (updateAt i f l).getD i fb = f (l.getD i fb) := by
  intro l
  induction l generalizing i with
  | nil => intro h; cases h
  | cons a l ih =>
    intro h
    cases i with
    | zero => rfl
    | succ j => exact ih j (Nat.lt_of_succ_lt_succ h)

theorem updateAt_getD_ne (i j : Nat) (f : α → α) (fb : α) (hne : i ≠ j) :
    ∀ l : List α, (updateAt i f l).getD j fb = l.getD j fb := by
  intro l
  induction l generalizing i j with
  | nil => simp [updateAt]
  | cons a l ih =>
    cases i with
    | zero =>
      cases j with
      | zero => exact absurd rfl hne
      | succ k => rfl
    | succ i' =>
      cases j with
      | zero => rfl
      | succ k => exact ih i' k (fun h => hne (by rw [h]))

theorem applyOcc_usage_mono (idx : String → Option Nat)
    (store : List VariableInfo) (o : Occ) (i : Nat) (fb : VariableInfo)
    (u : UsageRec) (hu : u ∈ (store.getD i fb).usage) :
    u ∈ ((applyOcc idx store o).getD i fb).usage := by
  unfold applyOcc
  split
  · exact hu
  case h_2 j hj =>
    by_cases hij : j = i
    · subst hij
      by_cases hlen : j < store.length
      · rw [updateAt_getD_self j _ fb store hlen]
        simp only [pushUsage, List.mem_append]
        exact Or.inl hu
      · have : updateAt j (pushUsage (mkUsage o)) store = store ∨ True :=
          Or.inr trivial
        rw [show (updateAt j (pushUsage (mkUsage o)) store).getD j fb
            = store.getD j fb from ?_]
        · exact hu
        · have h1 : (updateAt j (pushUsage (mkUsage o)) store).length =
            store.length := updateAt_length _ _ _
          rw [List.getD_eq_default, List.getD_eq_default]
          · omega
          · omega
    · rw [updateAt_getD_ne j i _ fb hij]
      exact hu

theorem applyOcc_hit (idx : String → Option Nat)
    (store : List VariableInfo) (o : Occ) (i : Nat) (fb : VariableInfo)
    (hidx : idx o.name = Option.some i) (hlen : i < store.length) :
    mkUsage o ∈ ((applyOcc idx store o).getD i fb).usage := by
  unfold applyOcc
  rw [hidx]
  rw [updateAt_getD_self i _ fb store hlen]
  simp [pushUsage]

theorem fold_usage_mono (idx : String → Option Nat) (occs : List Occ)
    (store : List VariableInfo) (i : Nat) (fb : VariableInfo)
    (u : UsageRec) (hu : u ∈ (store.getD i fb).usage) :
    u ∈ ((occs.foldl (applyOcc idx) store).getD i fb).usage := by
  induction occs generalizing store with
  | nil => exact hu
  | cons o os ih =>
    exact ih (applyOcc idx store o) (applyOcc_usage_mono idx store o i fb u hu)

theorem fold_hit (idx : String → Option Nat) (occs : List Occ)
    (store : List VariableInfo) (o : Occ) (i : Nat) (fb : VariableInfo)
    (ho : o ∈ occs) (hidx : idx o.name = Option.some i)
    (hlen : i < store.length) :
    mkUsage o ∈ ((occs.foldl (applyOcc idx) store).getD i fb).usage := by
  induction occs generalizing store with
  | nil => cases ho
  | cons o' os ih =>
    rcases List.mem_cons.mp ho with rfl | ho'
    · exact fold_usage_mono idx os _ i fb _
        (applyOcc_hit idx store o i fb hidx hlen)
    · exact ih (applyOcc idx store o') ho'
        (by rw [applyOcc_length]; exact hlen)

theorem updateAt_map_name (i : Nat) (u : UsageRec) :
    ∀ store : List VariableInfo,
      (updateAt i (pushUsage u) store).map VariableInfo.name =
        store.map VariableInfo.name := by
  intro store
  induction store generalizing i with
  | nil => simp [updateAt]
  | cons a l ih =>
    cases i with
    | zero => simp [updateAt, pushUsage]
    | succ j => simpa [updateAt] using ih j

theorem fold_map_name (idx : String → Option Nat) (occs : List Occ)
    (store : List VariableInfo) :
    ((occs.foldl (applyOcc idx) store).map VariableInfo.name) =
      store.map VariableInfo.name := by
  induction occs generalizing store with
  | nil => rfl
  | cons o os ih =>
    simp only [List.foldl_cons]
    rw [ih (applyOcc idx store o)]
    unfold applyOcc
    split
    · rfl
    · exact updateAt_map_name _ _ _

theorem getD_name_of_map_name_eq :
    ∀ (l1 l2 : List VariableInfo),
      l1.map VariableInfo.name = l2.map VariableInfo.name →
      ∀ (i : Nat) (fb : VariableInfo),
        (l1.getD i fb).name = (l2.getD i fb).name := by
  intro l1
  induction l1 with
  | nil =>
    intro l2 h i fb
    cases l2 with
    | nil => rfl
    | cons b l2 => cases h
  | cons a l1 ih =>
    intro l2 h i fb
    cases l2 with
    | nil => cases h
    | cons b l2 =>
      injection h with h1 h2
      cases i with
      | zero => exact h1
      | succ j => exact ih l2 h2 j fb

/-- C9.  For a variable whose declarator pattern is the plain identifier
`nm` at position `loc`, and whose name is extracted for exactly one
declaration seed in the file, the returned descriptor named `nm` carries a
usage record located at the declarator identifier's own position — the
usage traversal visits the declaration identifier itself — so its
`usageCount` is at least 1 even if the name is referenced nowhere else. -/
theorem c9_declaration_identifier_counts_as_usage (ast : JNode)
    (fp : String) (nm : String) (loc : Pos)
    (hdecl : (nm, loc) ∈ declaratorIdOccs ast)
    (huniq : (collectSeeds ast).countP (fun s => s.name == nm) = 1) :
    ∃ v ∈ analyzeVariables ast fp, v.name = nm ∧ 1 ≤ v.usageCount ∧
      ∃ u ∈ v.usage, u.location = loc := by
  have hocc := declId_occ ast nm loc hdecl
  have hseed := declId_seed ast nm loc hdecl
  obtain ⟨i, hi⟩ := lastIdxOf_complete (collectSeeds ast) nm hseed
  obtain ⟨hlen, hname⟩ := lastIdxOf_sound (collectSeeds ast) nm i hi
  have hflen : (analyzeVariables ast fp).length = (collectSeeds ast).length := by
    simp only [analyzeVariables]
    exact fold_length _ _ _
  refine ⟨(analyzeVariables ast fp).getD i fbInfo,
    getD_mem_of_lt i fbInfo (by omega), ?_, ?_, ?_⟩
  · have hmap : (analyzeVariables ast fp).map VariableInfo.name =
        (collectSeeds ast).map VariableInfo.name := by
      simp only [analyzeVariables]
      exact fold_map_name _ _ _
    rw [getD_name_of_map_name_eq _ _ hmap i fbInfo]
    rw [List.getD_eq_getElem _ _ hlen]
    simpa using hname
  · have hmem : mkUsage ⟨nm, loc, .varDeclarator⟩ ∈
        (((analyzeVariables ast fp)).getD i fbInfo).usage := by
      simp only [analyzeVariables]
      exact fold_hit _ _ _ _ i fbInfo hocc hi hlen
    have hgood := analyzeVariables_good ast fp _
      (getD_mem_of_lt i fbInfo (by omega))
    rw [hgood.1]
    have := List.length_pos_of_mem hmem
    omega
  · refine ⟨mkUsage ⟨nm, loc, .varDeclarator⟩, ?_, rfl⟩
    simp only [analyzeVariables]
    exact fold_hit _ _ _ _ i fbInfo hocc hi hlen

/-- Tree for the C9 witness: `const z = 1;` — the variable is never
referenced outside its own declaration. -/
def c9Tree : JNode :=
  .program (.cons
    (.varDeclaration .dConst (.cons
      (.varDeclarator (.ident "z" ⟨1, 6⟩) (.some (.numLit 1 ⟨1, 10⟩)) ⟨1, 6⟩)
      .nil))
    .nil)

theorem c9_witness :
    ∃ v ∈ analyzeVariables c9Tree "t", v.name = "z" ∧ 1 ≤ v.usageCount ∧
      ∃ u ∈ v.usage, u.location = ⟨1, 6⟩ :=
  c9_declaration_identifier_counts_as_usage c9Tree "t" "z" ⟨1, 6⟩
    (List.mem_cons_self _ _) (by decide)

theorem c10_witness :
    (((analyzeVariables c10Tree "t").getD 0 fbInfo).usage.getD 1
      (mkUsage ⟨"b", ⟨2, 0⟩, .assignExpr⟩)).isRead =
      !(((analyzeVariables c10Tree "t").getD 0 fbInfo).usage.getD 1
        (mkUsage ⟨"b", ⟨2, 0⟩, .assignExpr⟩)).isAssignment :=
  (c10_isRead_negates_isAssignment c10Tree "t").1 _
    (getD_mem_of_lt 0 fbInfo (by decide)) _
    (getD_mem_of_lt 1 _ (by decide))

/-! ## C4: edge closure, start/end structure -/

/-- Node-id list of a graph. -/
def nodeIds (g : FlowDiagram) : List String := g.nodes.map FlowNode.id

/-- Every edge endpoint names a node present in the graph's node set. -/
def edgesClosedB (g : FlowDiagram) : Bool :=
  g.edges.all fun e =>
    (nodeIds g).contains e.fromId && (nodeIds g).contains e.toId

theorem append_ne_target (a b t : String)
    (h : ¬ (List.take 3 (a ++ b).data = List.take 3 t.data)) : a ++ b ≠ t :=
  fun he => h (he ▸ rfl)

theorem caseId_ne_end (s : String) : "case_" ++ s ≠ "end" :=
  append_ne_target _ _ _ fun hh =>
    (by decide : ¬ (('c' :: 'a' :: 's' :: [] : List Char) = 'e' :: 'n' :: 'd' :: [])) hh

theorem caseId_ne_start (s : String) : "case_" ++ s ≠ "start" :=
  append_ne_target _ _ _ fun hh =>
    (by decide : ¬ (('c' :: 'a' :: 's' :: [] : List Char) = 's' :: 't' :: 'a' :: [])) hh

theorem ifId_ne_end (s : String) : "if_" ++ s ≠ "end" :=
  append_ne_target _ _ _ fun hh =>
    (by decide : ¬ (('i' :: 'f' :: '_' :: [] : List Char) = 'e' :: 'n' :: 'd' :: [])) hh

theorem ifId_ne_start (s : String) : "if_" ++ s ≠ "start" :=
  append_ne_target _ _ _ fun hh =>
    (by decide : ¬ (('i' :: 'f' :: '_' :: [] : List Char) = 's' :: 't' :: 'a' :: [])) hh

theorem thenId_ne_end (s : String) : "then_" ++ s ≠ "end" :=
  append_ne_target _ _ _ fun hh =>
    (by decide : ¬ (('t' :: 'h' :: 'e' :: [] : List Char) = 'e' :: 'n' :: 'd' :: [])) hh

theorem thenId_ne_start (s : String) : "then_" ++ s ≠ "start" :=
  append_ne_target _ _ _ fun hh =>
    (by decide : ¬ (('t' :: 'h' :: 'e' :: [] : List Char) = 's' :: 't' :: 'a' :: [])) hh

theorem elseId_ne_end (s : String) : "else_" ++ s ≠ "end" :=
  append_ne_target _ _ _ fun hh =>
    (by decide : ¬ (('e' :: 'l' :: 's' :: [] : List Char) = 'e' :: 'n' :: 'd' :: [])) hh

theorem elseId_ne_start (s : String) : "else_" ++ s ≠ "start" :=
  append_ne_target _ _ _ fun hh =>
    (by decide : ¬ (('e' :: 'l' :: 's' :: [] : List Char) = 's' :: 't' :: 'a' :: [])) hh

theorem loopId_ne_end (s : String) : "loop_" ++ s ≠ "end" :=
  append_ne_target _ _ _ fun hh =>
    (by decide : ¬ (('l' :: 'o' :: 'o' :: [] : List Char) = 'e' :: 'n' :: 'd' :: [])) hh

theorem loopId_ne_start (s : String) : "loop_" ++ s ≠ "start" :=
  append_ne_target _ _ _ fun hh =>
    (by decide : ¬ (('l' :: 'o' :: 'o' :: [] : List Char) = 's' :: 't' :: 'a' :: [])) hh

theorem bodyId_ne_end (s : String) : "body_" ++ s ≠ "end" :=
  append_ne_target _ _ _ fun hh =>
    (by decide : ¬ (('b' :: 'o' :: 'd' :: [] : List Char) = 'e' :: 'n' :: 'd' :: [])) hh

theorem bodyId_ne_start (s : String) : "body_" ++ s ≠ "start" :=
  append_ne_target _ _ _ fun hh =>
    (by decide : ¬ (('b' :: 'o' :: 'd' :: [] : List Char) = 's' :: 't' :: 'a' :: [])) hh

theorem switchId_ne_end (s : String) : "switch_" ++ s ≠ "end" :=
  append_ne_target _ _ _ fun hh =>
    (by decide : ¬ (('s' :: 'w' :: 'i' :: [] : List Char) = 'e' :: 'n' :: 'd' :: [])) hh

theorem switchId_ne_start (s : String) : "switch_" ++ s ≠ "start" :=
  append_ne_target _ _ _ fun hh =>
    (by decide : ¬ (('s' :: 'w' :: 'i' :: [] : List Char) = 's' :: 't' :: 'a' :: [])) hh

theorem stmtId_ne_end (s : String) : "stmt_" ++ s ≠ "end" :=
  append_ne_target _ _ _ fun hh =>
    (by decide : ¬ (('s' :: 't' :: 'm' :: [] : List Char) = 'e' :: 'n' :: 'd' :: [])) hh

theorem stmtId_ne_start (s : String) : "stmt_" ++ s ≠ "start" :=
  append_ne_target _ _ _ fun hh =>
    (by decide : ¬ (('s' :: 't' :: 'm' :: [] : List Char) = 's' :: 't' :: 'a' :: [])) hh

theorem programId_ne_end (s : String) : "program_" ++ s ≠ "end" :=
  append_ne_target _ _ _ fun hh =>
    (by decide : ¬ (('p' :: 'r' :: 'o' :: [] : List Char) = 'e' :: 'n' :: 'd' :: [])) hh

theorem programId_ne_start (s : String) : "program_" ++ s ≠ "start" :=
  append_ne_target _ _ _ fun hh =>
    (by decide : ¬ (('p' :: 'r' :: 'o' :: [] : List Char) = 's' :: 't' :: 'a' :: [])) hh

theorem funcId_ne_end (nm s : String) :
    ("func_" ++ nm ++ "_") ++ s ≠ "end" :=
  append_ne_target _ _ _ fun hh =>
    (by decide : ¬ (('f' :: 'u' :: 'n' :: [] : List Char) = 'e' :: 'n' :: 'd' :: [])) hh

theorem funcId_ne_start (nm s : String) :
    ("func_" ++ nm ++ "_") ++ s ≠ "start" :=
  append_ne_target _ _ _ fun hh =>
    (by decide : ¬ (('f' :: 'u' :: 'n' :: [] : List Char) = 's' :: 't' :: 'a' :: [])) hh

/-- The facts needed of every node emitted by the statement analyzers:
its type is an interior one and its id is not `end` (nor `start`). -/
def interiorNode (n : FlowNode) : Prop :=
  (n.type = "process" ∨ n.type = "decision" ∨ n.type = "loop" ∨
    n.type = "function") ∧ n.id ≠ "end" ∧ n.id ≠ "start"

theorem switchCasesCF_nodes :
    ∀ (cs : JList) (nodeId : Nat) (switchId : String),
      ∀ n ∈ (switchCasesCF cs nodeId switchId).1, interiorNode n
  | .nil, _, _ => by intro n hn; cases hn
  | .cons c rest, nodeId, switchId => by
      intro n hn
      simp only [switchCasesCF] at hn
      rcases List.mem_cons.mp hn with rfl | hn'
      · exact ⟨Or.inl rfl, caseId_ne_end _, caseId_ne_start _⟩
      · exact switchCasesCF_nodes rest (nodeId + 1) switchId n hn'

theorem switchCasesCF_edges :
    ∀ (cs : JList) (nodeId : Nat) (switchId : String),
      ∀ e ∈ (switchCasesCF cs nodeId switchId).2,
        e.fromId = switchId ∧
        e.toId ∈ (switchCasesCF cs nodeId switchId).1.map FlowNode.id
  | .nil, _, _ => by intro e he; cases he
  | .cons c rest, nodeId, switchId => by
      intro e he
      simp only [switchCasesCF] at he ⊢
      rcases List.mem_cons.mp he with rfl | he'
      · exact ⟨rfl, by simp⟩
      · obtain ⟨h1, h2⟩ := switchCasesCF_edges rest (nodeId + 1) switchId e he'
        exact ⟨h1, by simp [h2]⟩

theorem stmtCF_nodes (stmt : JNode) (nodeId : Nat) (parentId : String) :
    ∀ n ∈ (analyzeStatementCF stmt nodeId parentId).1, interiorNode n := by
  intro n hn
  cases stmt <;> simp only [analyzeStatementCF] at hn
  case ifStmt t c a =>
    cases a with
    | none =>
      rcases List.mem_cons.mp hn with rfl | hn2
      · exact ⟨Or.inr (Or.inl rfl), ifId_ne_end _, ifId_ne_start _⟩
      · rcases List.mem_singleton.mp hn2 with rfl
        exact ⟨Or.inl rfl, thenId_ne_end _, thenId_ne_start _⟩
    | some alt =>
      simp only [List.mem_append] at hn
      rcases hn with hn1 | hn2
      · rcases List.mem_cons.mp hn1 with rfl | hn3
        · exact ⟨Or.inr (Or.inl rfl), ifId_ne_end _, ifId_ne_start _⟩
        · rcases List.mem_singleton.mp hn3 with rfl
          exact ⟨Or.inl rfl, thenId_ne_end _, thenId_ne_start _⟩
      · rcases List.mem_singleton.mp hn2 with rfl
        exact ⟨Or.inl rfl, elseId_ne_end _, elseId_ne_start _⟩
  case forStmt i t u b =>
    rcases List.mem_cons.mp hn with rfl | hn2
    · exact ⟨Or.inr (Or.inr (Or.inl rfl)), loopId_ne_end _, loopId_ne_start _⟩
    · rcases List.mem_singleton.mp hn2 with rfl
      exact ⟨Or.inl rfl, bodyId_ne_end _, bodyId_ne_start _⟩
  case whileStmt t b =>
    rcases List.mem_cons.mp hn with rfl | hn2
    · exact ⟨Or.inr (Or.inr (Or.inl rfl)), loopId_ne_end _, loopId_ne_start _⟩
    · rcases List.mem_singleton.mp hn2 with rfl
      exact ⟨Or.inl rfl, bodyId_ne_end _, bodyId_ne_start _⟩
  case doWhileStmt b t =>
    rcases List.mem_cons.mp hn with rfl | hn2
    · exact ⟨Or.inr (Or.inr (Or.inl rfl)), loopId_ne_end _, loopId_ne_start _⟩
    · rcases List.mem_singleton.mp hn2 with rfl
      exact ⟨Or.inl rfl, bodyId_ne_end _, bodyId_ne_start _⟩
  case switchStmt d cs =>
    rcases List.mem_cons.mp hn with rfl | hn2
    · exact ⟨Or.inr (Or.inl rfl), switchId_ne_end _, switchId_ne_start _⟩
    · exact switchCasesCF_nodes cs (nodeId + 1) _ n hn2
  all_goals (
    rcases List.mem_singleton.mp hn with rfl;
    exact ⟨Or.inl rfl, stmtId_ne_end _, stmtId_ne_start _⟩)

theorem stmtCF_edges (stmt : JNode) (nodeId : Nat) (parentId : String) :
    ∀ e ∈ (analyzeStatementCF stmt nodeId parentId).2,
      (e.fromId = parentId ∨
        e.fromId ∈ (analyzeStatementCF stmt nodeId parentId).1.map
          FlowNode.id) ∧
      e.toId ∈ (analyzeStatementCF stmt nodeId parentId).1.map FlowNode.id := by
  intro e he
  cases stmt <;> simp only [analyzeStatementCF] at he ⊢
  case ifStmt t c a =>
    cases a with
    | none =>
      rcases List.mem_cons.mp he with rfl | he2
      · exact ⟨Or.inl rfl, by simp⟩
      · rcases List.mem_singleton.mp he2 with rfl
        exact ⟨Or.inr (by simp), by simp⟩
    | some alt =>
      simp only [List.mem_append] at he
      rcases he with he1 | he2
      · rcases List.mem_cons.mp he1 with rfl | he3
        · exact ⟨Or.inl rfl, by simp⟩
        · rcases List.mem_singleton.mp he3 with rfl
          exact ⟨Or.inr (by simp), by simp⟩
      · rcases List.mem_singleton.mp he2 with rfl
        exact ⟨Or.inr (by simp), by simp⟩
  case forStmt i t u b =>
    rcases List.mem_cons.mp he with rfl | he2
    · exact ⟨Or.inl rfl, by simp⟩
    · rcases List.mem_cons.mp he2 with rfl | he3
      · exact ⟨Or.inr (by simp), by simp⟩
      · rcases List.mem_singleton.mp he3 with rfl
        exact ⟨Or.inr (by simp), by simp⟩
  case whileStmt t b =>
    rcases List.mem_cons.mp he with rfl | he2
    · exact ⟨Or.inl rfl, by simp⟩
    · rcases List.mem_cons.mp he2 with rfl | he3
      · exact ⟨Or.inr (by simp), by simp⟩
      · rcases List.mem_singleton.mp he3 with rfl
        exact ⟨Or.inr (by simp), by simp⟩
  case doWhileStmt b t =>
    rcases List.mem_cons.mp he with rfl | he2
    · exact ⟨Or.inl rfl, by simp⟩
    · rcases List.mem_cons.mp he2 with rfl | he3
      · exact ⟨Or.inr (by simp), by simp⟩
      · rcases List.mem_singleton.mp he3 with rfl
        exact ⟨Or.inr (by simp), by simp⟩
  case switchStmt d cs =>
    rcases List.mem_cons.mp he with rfl | he2
    · exact ⟨Or.inl rfl, by simp⟩
    · obtain ⟨h1, h2⟩ := switchCasesCF_edges cs (nodeId + 1) _ e he2
      refine ⟨Or.inr (by simp [h1]), ?_⟩
      simp only [List.map_cons, List.mem_cons]
      exact Or.inr h2
  all_goals (
    rcases List.mem_singleton.mp he with rfl;
    exact ⟨Or.inl rfl, by simp⟩)

theorem stmtsCF_nodes :
    ∀ (body : JList) (nodeId : Nat) (parentId : String),
      ∀ n ∈ (stmtsCF body nodeId parentId).1, interiorNode n
  | .nil, _, _ => by intro n hn; cases hn
  | .cons s rest, nodeId, parentId => by
      intro n hn
      simp only [stmtsCF, List.mem_append] at hn
      rcases hn with hn | hn
      · exact stmtCF_nodes s nodeId parentId n hn
      · exact stmtsCF_nodes rest nodeId parentId n hn

theorem stmtsCF_edges :
    ∀ (body : JList) (nodeId : Nat) (parentId : String),
      ∀ e ∈ (stmtsCF body nodeId parentId).2,
        (e.fromId = parentId ∨
          e.fromId ∈ (stmtsCF body nodeId parentId).1.map FlowNode.id) ∧
        e.toId ∈ (stmtsCF body nodeId parentId).1.map FlowNode.id
  | .nil, _, _ => by intro e he; cases he
  | .cons s rest, nodeId, parentId => by
      intro e he
      simp only [stmtsCF, List.mem_append, List.map_append] at he ⊢
      rcases he with he | he
      · obtain ⟨h1, h2⟩ := stmtCF_edges s nodeId parentId e he
        exact ⟨h1.imp id Or.inl, Or.inl h2⟩
      · obtain ⟨h1, h2⟩ := stmtsCF_edges rest nodeId parentId e he
        exact ⟨h1.imp id Or.inr, Or.inr h2⟩

theorem progCF_nodes (body : JList) (nodeId : Nat) :
    ∀ n ∈ (analyzeProgramCF body nodeId).1, interiorNode n := by
  intro n hn
  simp only [analyzeProgramCF, List.mem_cons] at hn
  rcases hn with rfl | hn'
  · exact ⟨Or.inl rfl, programId_ne_end _, programId_ne_start _⟩
  · exact stmtsCF_nodes body (nodeId + 1) _ n hn'

theorem progCF_edges (body : JList) (nodeId : Nat) :
    ∀ e ∈ (analyzeProgramCF body nodeId).2,
      (e.fromId = "start" ∨
        e.fromId ∈ (analyzeProgramCF body nodeId).1.map FlowNode.id) ∧
      e.toId ∈ (analyzeProgramCF body nodeId).1.map FlowNode.id := by
  intro e he
  simp only [analyzeProgramCF, List.mem_cons, List.map_cons] at he ⊢
  rcases he with rfl | he'
  · exact ⟨Or.inl rfl, Or.inl rfl⟩
  · obtain ⟨h1, h2⟩ := stmtsCF_edges body (nodeId + 1) _ e he'
    rcases h1 with h1 | h1
    · exact ⟨Or.inr (Or.inl h1), Or.inr h2⟩
    · exact ⟨Or.inr (Or.inr h1), Or.inr h2⟩

theorem funcCF_nodes (f : JNode) (parent : Option JNode) (nodeId : Nat) :
    ∀ n ∈ (analyzeFunctionCF f parent nodeId).1, interiorNode n := by
  intro n hn
  simp only [analyzeFunctionCF, List.mem_cons] at hn
  rcases hn with rfl | hn'
  · exact ⟨Or.inr (Or.inr (Or.inr rfl)), funcId_ne_end _ _, funcId_ne_start _ _⟩
  · exact stmtCF_nodes _ (nodeId + 1) _ n hn'

theorem funcCF_edges (f : JNode) (parent : Option JNode) (nodeId : Nat) :
    ∀ e ∈ (analyzeFunctionCF f parent nodeId).2,
      e.fromId ∈ (analyzeFunctionCF f parent nodeId).1.map FlowNode.id ∧
      e.toId ∈ (analyzeFunctionCF f parent nodeId).1.map FlowNode.id := by
  intro e he
  simp only [analyzeFunctionCF, List.map_cons, List.mem_cons] at he ⊢
  obtain ⟨h1, h2⟩ := stmtCF_edges _ (nodeId + 1) _ e he
  rcases h1 with h1 | h1
  · exact ⟨Or.inl h1, Or.inr h2⟩
  · exact ⟨Or.inr h1, Or.inr h2⟩

theorem progPartCF_nodes (ast : JNode) :
    ∀ n ∈ (progPartCF ast).1, interiorNode n := by
  intro n hn
  cases ast <;> simp only [progPartCF] at hn
  case program body => exact progCF_nodes body 0 n hn
  all_goals cases hn

theorem progPartCF_edges (ast : JNode) :
    ∀ e ∈ (progPartCF ast).2,
      (e.fromId = "start" ∨
        e.fromId ∈ (progPartCF ast).1.map FlowNode.id) ∧
      e.toId ∈ (progPartCF ast).1.map FlowNode.id := by
  intro e he
  cases ast <;> simp only [progPartCF] at he ⊢
  case program body => exact progCF_edges body 0 e he
  all_goals cases he

/-- Lifting a program-part node id into the assembled graph's id list. -/
theorem cf_lift_prog (ast : JNode) (fp : String) (sid : String)
    (h : sid ∈ (progPartCF ast).1.map FlowNode.id) :
    sid ∈ nodeIds (generateControlFlow ast fp) := by
  simp only [nodeIds, generateControlFlow, List.map_cons, List.map_append,
    List.mem_cons, List.mem_append, List.mem_singleton, or_assoc]
  exact Or.inr (Or.inl h)

/-- Lifting a function-part node id into the assembled graph's id list. -/
theorem cf_lift_func (ast : JNode) (fp : String) (sid : String)
    (f : JNode × Option JNode) (hf : f ∈ collectCFFunctions ast)
    (h : sid ∈ (analyzeFunctionCF f.1 f.2 0).1.map FlowNode.id) :
    sid ∈ nodeIds (generateControlFlow ast fp) := by
  simp only [nodeIds, generateControlFlow, List.map_cons, List.map_append,
    List.mem_cons, List.mem_append, List.mem_singleton, or_assoc]
  refine Or.inr (Or.inr (Or.inl ?_))
  simp only [List.mem_map] at h
  obtain ⟨n, hn, rfl⟩ := h
  refine List.mem_map_of_mem FlowNode.id ?_
  refine List.mem_flatten.mpr ⟨(analyzeFunctionCF f.1 f.2 0).1, ?_, hn⟩
  refine List.mem_map.mpr ⟨analyzeFunctionCF f.1 f.2 0, ?_, rfl⟩
  exact List.mem_map.mpr ⟨f, hf, rfl⟩

/-- Every node of the control-flow graph is the `start` node, the `end`
node, or an interior node. -/
theorem controlFlow_middle_nodes (ast : JNode) (fp : String) :
    ∀ n ∈ (generateControlFlow ast fp).nodes,
      n = ⟨"start", "Start", "start", []⟩ ∨
      n = ⟨"end", "End", "end", []⟩ ∨ interiorNode n := by
  intro n hn
  simp only [generateControlFlow, List.mem_cons, List.mem_append,
    List.mem_singleton, List.not_mem_nil, or_false, or_assoc] at hn
  rcases hn with rfl | hn | hn | rfl
  · exact Or.inl rfl
  · exact Or.inr (Or.inr (progPartCF_nodes ast n hn))
  · simp only [List.mem_flatten, List.mem_map] at hn
    obtain ⟨l, ⟨pr, ⟨f, hf, rfl⟩, rfl⟩, hnl⟩ := hn
    exact Or.inr (Or.inr (funcCF_nodes f.1 f.2 0 n hnl))
  · exact Or.inr (Or.inl rfl)

/-- Edge endpoints of the control-flow graph are node ids of the graph, and
no edge targets the `end` node. -/
theorem controlFlow_edges_spec (ast : JNode) (fp : String) :
    ∀ e ∈ (generateControlFlow ast fp).edges,
      e.fromId ∈ nodeIds (generateControlFlow ast fp) ∧
      e.toId ∈ nodeIds (generateControlFlow ast fp) ∧ e.toId ≠ "end" := by
  intro e he
  simp only [generateControlFlow, List.mem_append] at he
  rcases he with he | he
  · obtain ⟨h1, h2⟩ := progPartCF_edges ast e he
    have hto : e.toId ≠ "end" := by
      simp only [List.mem_map] at h2
      obtain ⟨n, hn, heq⟩ := h2
      exact heq ▸ (progPartCF_nodes ast n hn).2.1
    refine ⟨?_, cf_lift_prog ast fp _ h2, hto⟩
    rcases h1 with h1 | h1
    · simp [nodeIds, generateControlFlow, h1]
    · exact cf_lift_prog ast fp _ h1
  · simp only [List.mem_flatten, List.mem_map] at he
    obtain ⟨l, ⟨pr, ⟨f, hf, rfl⟩, rfl⟩, hel⟩ := he
    obtain ⟨h1, h2⟩ := funcCF_edges f.1 f.2 0 e hel
    have hto : e.toId ≠ "end" := by
      simp only [List.mem_map] at h2
      obtain ⟨n, hn, heq⟩ := h2
      exact heq ▸ (funcCF_nodes f.1 f.2 0 n hn).2.1
    exact ⟨cf_lift_func ast fp _ f hf h1, cf_lift_func ast fp _ f hf h2, hto⟩

/-- Every node strictly between `start` and `end` in the assembled
control-flow node list is an interior node. -/
theorem controlFlow_interior (ast : JNode) (fp : String) :
    ∀ n ∈ (progPartCF ast).1 ++
      (((collectCFFunctions ast).map fun f =>
        analyzeFunctionCF f.1 f.2 0).map Prod.fst).flatten,
      interiorNode n := by
  intro n hn
  rcases List.mem_append.mp hn with hn | hn
  · exact progPartCF_nodes ast n hn
  · simp only [List.mem_flatten, List.mem_map] at hn
    obtain ⟨l, ⟨pr, ⟨f, hf, rfl⟩, rfl⟩, hnl⟩ := hn
    exact funcCF_nodes f.1 f.2 0 n hnl

theorem count_of_interior_start (mid : List FlowNode)
    (h : ∀ n ∈ mid, interiorNode n) :
    (((⟨"start", "Start", "start", []⟩ : FlowNode) ::
      (mid ++ [(⟨"end", "End", "end", []⟩ : FlowNode)])).countP
        (fun n => n.id == "start")) = 1 := by
  have h0 : mid.countP (fun n => n.id == "start") = 0 :=
    List.countP_eq_zero.mpr fun n hn => by
      simpa using (h n hn).2.2
  rw [List.countP_cons, List.countP_append, h0, List.countP_cons,
    List.countP_nil]
  rfl

theorem count_of_interior_end (mid : List FlowNode)
    (h : ∀ n ∈ mid, interiorNode n) :
    (((⟨"start", "Start", "start", []⟩ : FlowNode) ::
      (mid ++ [(⟨"end", "End", "end", []⟩ : FlowNode)])).countP
        (fun n => n.id == "end")) = 1 := by
  have h0 : mid.countP (fun n => n.id == "end") = 0 :=
    List.countP_eq_zero.mpr fun n hn => by
      simpa using (h n hn).2.1
  rw [List.countP_cons, List.countP_append, h0, List.countP_cons,
    List.countP_nil]
  rfl

/-- The assembled control-flow graph has exactly one `start` node. -/
theorem controlFlow_start_count (ast : JNode) (fp : String) :
    (generateControlFlow ast fp).nodes.countP
      (fun n => n.id == "start") = 1 :=
  count_of_interior_start _ (controlFlow_interior ast fp)

/-- The assembled control-flow graph has exactly one `end` node. -/
theorem controlFlow_end_count (ast : JNode) (fp : String) :
    (generateControlFlow ast fp).nodes.countP
      (fun n => n.id == "end") = 1 :=
  count_of_interior_end _ (controlFlow_interior ast fp)

/-- Edge closure of the assembled control-flow graph, in executable form. -/
theorem controlFlow_closed (ast : JNode) (fp : String) :
    edgesClosedB (generateControlFlow ast fp) = true := by
  simp only [edgesClosedB, List.all_eq_true, Bool.and_eq_true]
  intro e he
  obtain ⟨h1, h2, _⟩ := controlFlow_edges_spec ast fp e he
  exact ⟨List.elem_iff.mpr h1, List.elem_iff.mpr h2⟩

/-- No edge of the assembled control-flow graph targets the `end` node. -/
theorem controlFlow_no_end_target (ast : JNode) (fp : String) :
    (generateControlFlow ast fp).edges.all
      (fun e => !(e.toId == "end")) = true := by
  simp only [List.all_eq_true, Bool.not_eq_true', beq_eq_false_iff_ne]
  intro e he
  exact (controlFlow_edges_spec ast fp e he).2.2

/-- An entry of `mapSet m k v` is the new pair or an old entry. -/
theorem mapSet_mem (m : List (String × String)) (k v : String) :
    ∀ kv ∈ mapSet m k v, kv = (k, v) ∨ kv ∈ m := by
  induction m with
  | nil => intro kv hkv; simp [mapSet] at hkv; exact Or.inl hkv
  | cons hd tl ih =>
      intro kv hkv
      simp only [mapSet] at hkv
      by_cases hk : hd.1 = k
      · rw [if_pos hk] at hkv
        rcases List.mem_cons.mp hkv with rfl | hkv
        · exact Or.inl rfl
        · exact Or.inr (List.mem_cons_of_mem _ hkv)
      · rw [if_neg hk] at hkv
        rcases List.mem_cons.mp hkv with rfl | hkv
        · exact Or.inr (List.mem_cons_self _ _)
        · rcases ih kv hkv with h | h
          · exact Or.inl h
          · exact Or.inr (List.mem_cons_of_mem _ h)

/-- A successful `mapGet` returns a stored pair. -/
theorem mapGet_mem (m : List (String × String)) (k v : String)
    (h : mapGet m k = Option.some v) : (k, v) ∈ m := by
  induction m with
  | nil => exact Option.noConfusion h
  | cons hd tl ih =>
      simp only [mapGet] at h
      by_cases hk : hd.1 = k
      · rw [if_pos hk] at h
        injection h with h
        subst h
        rw [← hk]
        exact List.mem_cons_self _ _
      · rw [if_neg hk] at h
        exact List.mem_cons_of_mem _ (ih h)

/-- The closure invariant of the data-flow fold: every id stored in the
variable map names an emitted node, and every emitted edge's endpoints name
emitted nodes. -/
def dfInv (s : DFState) : Prop :=
  (∀ kv ∈ s.varMap, kv.2 ∈ s.nodes.map FlowNode.id) ∧
  (∀ e ∈ s.edges, e.fromId ∈ s.nodes.map FlowNode.id ∧
    e.toId ∈ s.nodes.map FlowNode.id)

theorem dfStep_idOcc_none (entropy : Nat → String) (s : DFState)
    (nm : String) (pa : Bool) (hget : mapGet s.varMap nm = Option.none) :
    dfStep entropy s (.idOcc nm pa) = s := by
  simp [dfStep, hget]

theorem dfStep_idOcc_read (entropy : Nat → String) (s : DFState)
    (nm varId : String)
    (hget : mapGet s.varMap nm = Option.some varId) :
    dfStep entropy s (.idOcc nm false) = s := by
  simp [dfStep, hget]

theorem dfStep_idOcc_assign (entropy : Nat → String) (s : DFState)
    (nm varId : String)
    (hget : mapGet s.varMap nm = Option.some varId) :
    dfStep entropy s (.idOcc nm true) =
      { s with
        nodes := s.nodes ++
          [⟨"assign_" ++ entropy s.draws, "Assignment", "process", []⟩]
        edges := s.edges ++
          [⟨varId, "assign_" ++ entropy s.draws, Option.none,
            Option.some "data", Option.none⟩]
        draws := s.draws + 1 } := by
  simp [dfStep, hget]

theorem dfStep_inv (entropy : Nat → String) (s : DFState) (ev : DFEv)
    (h : dfInv s) : dfInv (dfStep entropy s ev) := by
  obtain ⟨h1, h2⟩ := h
  cases ev with
  | decl nm kindStr val =>
      refine ⟨?_, ?_⟩
      · intro kv hkv
        rcases mapSet_mem s.varMap nm ("var_" ++ nm) kv hkv with rfl | hkv
        · simp [dfStep]
        · simp only [dfStep, List.map_append, List.mem_append]
          exact Or.inl (h1 kv hkv)
      · intro e he
        obtain ⟨he1, he2⟩ := h2 e he
        simp only [dfStep, List.map_append, List.mem_append]
        exact ⟨Or.inl he1, Or.inl he2⟩
  | idOcc nm pAssign =>
      cases hget : mapGet s.varMap nm with
      | none =>
          rw [dfStep_idOcc_none entropy s nm pAssign hget]
          exact ⟨h1, h2⟩
      | some varId =>
          cases pAssign with
          | false =>
              rw [dfStep_idOcc_read entropy s nm varId hget]
              exact ⟨h1, h2⟩
          | true =>
              rw [dfStep_idOcc_assign entropy s nm varId hget]
              refine ⟨?_, ?_⟩
              · intro kv hkv
                simp only [List.map_append, List.mem_append]
                exact Or.inl (h1 kv hkv)
              · intro e he
                rcases List.mem_append.mp he with he | he
                · obtain ⟨he1, he2⟩ := h2 e he
                  simp only [List.map_append, List.mem_append]
                  exact ⟨Or.inl he1, Or.inl he2⟩
                · rcases List.mem_singleton.mp he with rfl
                  simp only [List.map_append, List.mem_append]
                  refine ⟨Or.inl (h1 _ (mapGet_mem _ _ _ hget)), Or.inr ?_⟩
                  simp

theorem df_fold_inv (entropy : Nat → String) (evs : List DFEv) :
    ∀ (s : DFState), dfInv s → dfInv (evs.foldl (dfStep entropy) s) := by
  induction evs with
  | nil => intro s h; exact h
  | cons ev rest ih =>
      intro s h
      simp only [List.foldl_cons]
      exact ih _ (dfStep_inv entropy s ev h)

/-- Edge closure of every generated data-flow graph. -/
theorem dataFlow_closed (ast : JNode) (fp : String)
    (entropy : Nat → String) :
    edgesClosedB (generateDataFlow ast fp entropy) = true := by
  have hinv : dfInv ((dfEvents ast).foldl (dfStep entropy) ⟨[], [], [], 0⟩) :=
    df_fold_inv entropy (dfEvents ast) _ ⟨fun _ h => absurd h (by simp),
      fun _ h => absurd h (by simp)⟩
  simp only [edgesClosedB, List.all_eq_true, Bool.and_eq_true]
  intro e he
  obtain ⟨he1, he2⟩ := hinv.2 e he
  exact ⟨List.elem_iff.mpr he1, List.elem_iff.mpr he2⟩

/-- The closure invariant of the component-tree fold. -/
def ctInv (s : CTState) : Prop :=
  (∀ kv ∈ s.compMap, kv.2 ∈ s.nodes.map FlowNode.id) ∧
  (∀ e ∈ s.edges, e.fromId ∈ s.nodes.map FlowNode.id ∧
    e.toId ∈ s.nodes.map FlowNode.id)

theorem ctChildren_cons_hit (componentId tag : String) (rest : List String)
    (s : CTState) (cid : String) (hcap : capFirst tag = true)
    (hget : mapGet s.compMap tag = Option.some cid) :
    ctChildren componentId s (tag :: rest) =
      ctChildren componentId
        { s with edges := s.edges ++
            [⟨componentId, cid, Option.none, Option.some "dependency",
              Option.none⟩] } rest := by
  simp [ctChildren, hcap, hget]

theorem ctChildren_cons_new (componentId tag : String) (rest : List String)
    (s : CTState) (hcap : capFirst tag = true)
    (hget : mapGet s.compMap tag = Option.none) :
    ctChildren componentId s (tag :: rest) =
      ctChildren componentId
        { nodes := s.nodes ++
            [⟨"comp_" ++ tag, tag, "component", []⟩]
          edges := s.edges ++
            [⟨componentId, "comp_" ++ tag, Option.none,
              Option.some "dependency", Option.none⟩]
          compMap := mapSet s.compMap tag ("comp_" ++ tag) } rest := by
  simp [ctChildren, hcap, hget]

theorem ctChildren_cons_low (componentId tag : String) (rest : List String)
    (s : CTState) (hcap : capFirst tag = false) :
    ctChildren componentId s (tag :: rest) =
      ctChildren componentId s rest := by
  simp [ctChildren, hcap]

theorem ctChildren_inv (componentId : String) :
    ∀ (tags : List String) (s : CTState),
      ctInv s → componentId ∈ s.nodes.map FlowNode.id →
      ctInv (ctChildren componentId s tags) ∧
      ∀ sid ∈ s.nodes.map FlowNode.id,
        sid ∈ (ctChildren componentId s tags).nodes.map FlowNode.id := by
  intro tags
  induction tags with
  | nil => intro s h hc; exact ⟨h, fun sid hs => hs⟩
  | cons tag rest ih =>
      intro s h hc
      cases hcap : capFirst tag with
      | false =>
          rw [ctChildren_cons_low componentId tag rest s hcap]
          exact ih s h hc
      | true =>
          cases hget : mapGet s.compMap tag with
          | none =>
              rw [ctChildren_cons_new componentId tag rest s hcap hget]
              have hstep := ih
                { nodes := s.nodes ++
                    [⟨"comp_" ++ tag, tag, "component", []⟩]
                  edges := s.edges ++
                    [⟨componentId, "comp_" ++ tag, Option.none,
                      Option.some "dependency", Option.none⟩]
                  compMap := mapSet s.compMap tag ("comp_" ++ tag) }
                ⟨?_, ?_⟩ ?_
              · refine ⟨hstep.1, fun sid hs => hstep.2 sid ?_⟩
                simp only [List.map_append, List.mem_append]
                exact Or.inl hs
              · intro kv hkv
                rcases mapSet_mem _ _ _ kv hkv with rfl | hkv
                · simp
                · simp only [List.map_append, List.mem_append]
                  exact Or.inl (h.1 kv hkv)
              · intro e he
                rcases List.mem_append.mp he with he | he
                · obtain ⟨he1, he2⟩ := h.2 e he
                  simp only [List.map_append, List.mem_append]
                  exact ⟨Or.inl he1, Or.inl he2⟩
                · rcases List.mem_singleton.mp he with rfl
                  simp only [List.map_append, List.mem_append]
                  refine ⟨Or.inl hc, Or.inr ?_⟩
                  simp
              · simp only [List.map_append, List.mem_append]
                exact Or.inl hc
          | some cid =>
              rw [ctChildren_cons_hit componentId tag rest s cid hcap hget]
              have hcid : cid ∈ s.nodes.map FlowNode.id :=
                h.1 _ (mapGet_mem _ _ _ hget)
              have hstep := ih
                { s with edges := s.edges ++
                    [⟨componentId, cid, Option.none, Option.some "dependency",
                      Option.none⟩] }
                ⟨h.1, ?_⟩ hc
              · exact ⟨hstep.1, fun sid hs => hstep.2 sid hs⟩
              · intro e he
                rcases List.mem_append.mp he with he | he
                · exact h.2 e he
                · rcases List.mem_singleton.mp he with rfl
                  exact ⟨hc, hcid⟩

theorem ctStep_inv (s : CTState) (fp : JNode × Option JNode) (h : ctInv s) :
    ctInv (ctStep s fp) := by
  simp only [ctStep]
  refine (ctChildren_inv _ (jsxTags fp.1) _ ⟨?_, ?_⟩ ?_).1
  · intro kv hkv
    rcases mapSet_mem _ _ _ kv hkv with rfl | hkv
    · simp
    · simp only [List.map_append, List.mem_append]
      exact Or.inl (h.1 kv hkv)
  · intro e he
    obtain ⟨he1, he2⟩ := h.2 e he
    simp only [List.map_append, List.mem_append]
    exact ⟨Or.inl he1, Or.inl he2⟩
  · simp

theorem ct_fold_inv (fps : List (JNode × Option JNode)) :
    ∀ (s : CTState), ctInv s → ctInv (fps.foldl ctStep s) := by
  induction fps with
  | nil => intro s h; exact h
  | cons fp rest ih =>
      intro s h
      simp only [List.foldl_cons]
      exact ih _ (ctStep_inv s fp h)

/-- Edge closure of every generated component tree. -/
theorem componentTree_closed (ast : JNode) (fp : String) :
    edgesClosedB (generateComponentTree ast fp) = true := by
  have hinv : ctInv ((collectCTComponents ast).foldl ctStep ⟨[], [], []⟩) :=
    ct_fold_inv (collectCTComponents ast) _ ⟨fun _ h => absurd h (by simp),
      fun _ h => absurd h (by simp)⟩
  simp only [edgesClosedB, List.all_eq_true, Bool.and_eq_true]
  intro e he
  obtain ⟨he1, he2⟩ := hinv.2 e he
  exact ⟨List.elem_iff.mpr he1, List.elem_iff.mpr he2⟩

/-- A project info with one dependency whose `usedIn` path has no
corresponding file entry. -/
def c4DepInput : ProjDeps :=
  ⟨[], [⟨"react", "18.0.0", "production", ["src/App.jsx"]⟩]⟩

/-- A one-statement program, for the reachability part of C4. -/
def c4CFTree : JNode :=
  .program (.cons (.exprStmt (.ident "x" ⟨1, 0⟩)) .nil)

/-- C4 counterexample.  (a) `generateDependencyGraph` emits, for every
`usedIn` path of a dependency, an edge to `file_<sanitized path>` whether or
not such a file node exists, so its edge endpoints can be absent from the
node set.  (b) Even on a plain one-statement program, the control-flow
graph contains the `end` node but no edge targeting it, so `end` is never
reachable from `start` along the emitted edges. -/
theorem c4_graph_invariants_counterexample :
    edgesClosedB (generateDependencyGraph c4DepInput) = false ∧
    (generateControlFlow c4CFTree "test.js").nodes.countP
      (fun n => n.id == "end") = 1 ∧
    (generateControlFlow c4CFTree "test.js").edges.all
      (fun e => !(e.toId == "end")) = true := by
  refine ⟨by decide, by decide, by decide⟩

/-- C4 (amended).  For the tree-based synthesizers the edge-closure
invariant does hold: every edge of a generated control-flow, data-flow or
component-tree graph has both endpoints in the graph's node set, and the
control-flow graph has exactly one `start` and exactly one `end` node.
But no emitted control-flow edge ever targets `end`, so the `end` node is
not reachable from `start`; and `generateDependencyGraph` violates edge
closure outright (see the counterexample). -/
theorem c4_edge_closure_and_start_end (ast : JNode) (fp : String)
    (entropy : Nat → String) :
    edgesClosedB (generateControlFlow ast fp) = true ∧
    edgesClosedB (generateDataFlow ast fp entropy) = true ∧
    edgesClosedB (generateComponentTree ast fp) = true ∧
    (generateControlFlow ast fp).nodes.countP
      (fun n => n.id == "start") = 1 ∧
    (generateControlFlow ast fp).nodes.countP
      (fun n => n.id == "end") = 1 ∧
    (generateControlFlow ast fp).edges.all
      (fun e => !(e.toId == "end")) = true :=
  ⟨controlFlow_closed ast fp, dataFlow_closed ast fp entropy,
    componentTree_closed ast fp, controlFlow_start_count ast fp,
    controlFlow_end_count ast fp, controlFlow_no_end_target ast fp⟩

end FrontAnalysis